import Mathlib

/-!
Verification of the dreadcabinet structured-input date-path codec, date-range
filter, walker and output constructor.

JavaScript strings are modelled as lists of characters (JStr).  Character
classes, parseInt, substring, split and path handling are modelled explicitly
with JavaScript semantics.  Dates returned by the parser are modelled as civil
date-time tuples; the construct-then-verify step of the source (building a
JS Date via Date.UTC and re-reading its components) is modelled including the
two-digit-year rule of Date.UTC (years 0..99 are mapped to 1900..1999) and the
day-overflow normalisation (day beyond the month length rolls over, so the
verification of components fails).
-/

namespace DreadCabinet

/-- JavaScript string, modelled as a list of characters. -/
abbrev JStr := List Char

/-- ASCII digit test on the character code. -/
def isDigitChar (c : Char) : Bool := 48 ≤ c.toNat && c.toNat ≤ 57

/-- The ASCII fragment of the regex classes p{L} and p{N} of the source: on
ASCII characters it agrees exactly with the full Unicode classes (the ASCII
letters are the only ASCII members of p{L}, the ASCII digits the only ASCII
members of p{N}).  The full classes are not enumerated here, so every theorem
whose input reaches the end-trimming regex of parseDateFromString carries an
ASCII hypothesis on that input; the codec itself emits ASCII only. -/
def isAlnumChar (c : Char) : Bool :=
  isDigitChar c || (65 ≤ c.toNat && c.toNat ≤ 90) || (97 ≤ c.toNat && c.toNat ≤ 122)

/-- The ECMAScript StrWhiteSpaceChar set skipped by parseInt: WhiteSpace
(tab, line tabulation, form feed, space, no-break space, Ogham space mark,
the en-quad to hair-space range, narrow no-break space, medium mathematical
space, ideographic space, zero-width no-break space) together with the line
terminators (line feed, carriage return, line separator, paragraph
separator). -/
def isWSChar (c : Char) : Bool :=
  decide (c.toNat = 9 ∨ c.toNat = 10 ∨ c.toNat = 11 ∨ c.toNat = 12 ∨ c.toNat = 13 ∨
    c.toNat = 32 ∨ c.toNat = 160 ∨ c.toNat = 5760 ∨
    (8192 ≤ c.toNat ∧ c.toNat ≤ 8202) ∨ c.toNat = 8232 ∨ c.toNat = 8233 ∨
    c.toNat = 8239 ∨ c.toNat = 8287 ∨ c.toNat = 12288 ∨ c.toNat = 65279)

/-- Drop from the end of the list while the predicate holds. -/
def dropEndWhile (p : Char → Bool) (s : JStr) : JStr :=
  (s.reverse.dropWhile p).reverse

/-- Models the regex replace in parseDateFromString that strips leading and
trailing characters outside the Unicode letter and number classes from the
date string; exact for ASCII input, where isAlnumChar coincides with the
full classes of the source regex. -/
def cleanEnds (s : JStr) : JStr :=
  dropEndWhile (fun c => !isAlnumChar c) (s.dropWhile (fun c => !isAlnumChar c))

/-- Dash or underscore, the separators of the filename date grammar. -/
def isSepChar (c : Char) : Bool := c = '-' || c = '_'

/-- String split on a character class, JavaScript semantics: empty fields are
kept, and splitting the empty string yields one empty field. -/
def splitSep (p : Char → Bool) : JStr → List JStr
  | [] => [[]]
  | c :: rest =>
    match splitSep p rest with
    | [] => [[c]]
    | t :: ts => if p c then [] :: t :: ts else (c :: t) :: ts

/-- Join a list of fields with a separator character (inverse of splitSep). -/
def joinSep (sep : Char) : List JStr → JStr
  | [] => []
  | [t] => t
  | t :: ts => t ++ sep :: joinSep sep ts

/-- Value of a digit string, most significant digit first. -/
def digitsVal (s : JStr) : Nat :=
  s.foldl (fun a c => a * 10 + (c.toNat - 48)) 0

/-- Parse the leading run of decimal digits, JavaScript parseInt semantics:
NaN (none) when there is no leading digit. -/
def parseIntDigits (s : JStr) : Option Nat :=
  let ds := s.takeWhile isDigitChar
  if ds.isEmpty then none else some (digitsVal ds)

/-- JavaScript parseInt with radix 10: skip leading whitespace, optional
sign, then the leading digit run; NaN is modelled as none. -/
def jsParseInt (s : JStr) : Option Int :=
  let t := s.dropWhile isWSChar
  if t.headD ' ' = '-' then (parseIntDigits (t.drop 1)).map (fun n => -(n : Int))
  else if t.headD ' ' = '+' then (parseIntDigits (t.drop 1)).map (fun n => (n : Int))
  else (parseIntDigits t).map (fun n => (n : Int))

/-- Models path.basename(filename, path.extname(filename)) for a base name:
strip the suffix from the last dot, unless the dot is the first character or
there is no dot. -/
def stemOf (filename : JStr) : JStr :=
  let r := filename.reverse
  let ext := r.takeWhile (fun c => c ≠ '.')
  if ext.length = r.length then filename
  else
    let pre := r.drop (ext.length + 1)
    if pre.isEmpty then filename else pre.reverse

/-- Civil date-time at minute precision, the value recovered by the decoder
(months are 1-indexed here; the JS-internal 0-indexed month is local to the
parsing functions). -/
structure CivilDateTime where
  year : Int
  month : Int
  day : Int
  hour : Int
  minute : Int
deriving Repr, DecidableEq

/-- Proleptic Gregorian leap-year rule, as used by the JavaScript Date. -/
def isLeapYear (y : Int) : Bool := (y % 4 = 0 && ¬ y % 100 = 0) || y % 400 = 0

/-- Number of days of month m (1-indexed) in year y. -/
def daysInMonth (y m : Int) : Int :=
  if m = 2 then (if isLeapYear y then 29 else 28)
  else if m = 4 ∨ m = 6 ∨ m = 9 ∨ m = 11 then 30 else 31

/-- Models the final steps of parseDateFromString: the range validation of the
parsed components, then the construct-then-verify round trip through
Date.UTC.  Date.UTC maps a year in 0..99 to 1900+year, and normalises a day
beyond the month length into the next month; in both cases the verification
of the reread components fails and the source returns null.  The month
argument mo is 0-indexed as in the source. -/
def finishDate (y mo d h mi : Int) : Option CivilDateTime :=
  if mo < 0 ∨ 11 < mo ∨ d < 1 ∨ 31 < d ∨ h < 0 ∨ 23 < h ∨ mi < 0 ∨ 59 < mi then none
  else if 0 ≤ y ∧ y ≤ 99 then none
  else if daysInMonth y (mo + 1) < d then none
  else some ⟨y, mo + 1, d, h, mi⟩

/-- The four accepted format arguments of parseDateFromString. -/
inductive DateFormat where
  | ymdhm
  | mdhm
  | dhm
  | hm
deriving Repr, DecidableEq

/-- Models the HHmm extraction of the source for the first three formats:
require at least four characters, then parse positions 0-2 and 2-4 with
parseInt; a NaN hour or minute is coerced to 0 by the source before the
range check. -/
def parseTimeToken (t : JStr) : Option (Int × Int) :=
  if t.length < 4 then none
  else some ((jsParseInt (t.take 2)).getD 0, (jsParseInt ((t.drop 2).take 2)).getD 0)

/-- Model of parseDateFromString from src/input/structured.ts.  Returns none
wherever the source returns null (including every caught exception). -/
def parseDateFromString (dateStr : JStr) (format : DateFormat) (shouldParseTime : Bool)
    (year month day : Option Int) : Option CivilDateTime :=
  if dateStr.isEmpty then none
  else
    let parts := splitSep isSepChar (cleanEnds dateStr)
    match format with
    | .ymdhm =>
      if shouldParseTime && parts.length < 4 then none
      else if !shouldParseTime && parts.length < 3 then none
      else
        match jsParseInt (parts.getD 0 []), jsParseInt (parts.getD 1 []),
              jsParseInt (parts.getD 2 []) with
        | some y, some mo1, some d =>
          if shouldParseTime then
            match parseTimeToken (parts.getD 3 []) with
            | none => none
            | some (h, mi) => finishDate y (mo1 - 1) d h mi
          else finishDate y (mo1 - 1) d 0 0
        | _, _, _ => none
    | .mdhm =>
      match year with
      | none => none
      | some y =>
        if shouldParseTime && parts.length < 3 then none
        else if !shouldParseTime && parts.length < 2 then none
        else
          match jsParseInt (parts.getD 0 []), jsParseInt (parts.getD 1 []) with
          | some mo1, some d =>
            if shouldParseTime then
              match parseTimeToken (parts.getD 2 []) with
              | none => none
              | some (h, mi) => finishDate y (mo1 - 1) d h mi
            else finishDate y (mo1 - 1) d 0 0
          | _, _ => none
    | .dhm =>
      match year, month with
      | some y, some mo =>
        if shouldParseTime && parts.length < 2 then none
        else if !shouldParseTime && parts.length < 1 then none
        else
          match jsParseInt (parts.getD 0 []) with
          | some d =>
            if shouldParseTime then
              match parseTimeToken (parts.getD 1 []) with
              | none => none
              | some (h, mi) => finishDate y mo d h mi
            else finishDate y mo d 0 0
          | none => none
      | _, _ => none
    | .hm =>
      match year, month, day with
      | some y, some mo, some d =>
        if shouldParseTime then
          let t := parts.getD 0 []
          if t.length ≠ 4 then none
          else finishDate y mo d ((jsParseInt (t.take 2)).getD 0)
                 ((jsParseInt ((t.drop 2).take 2)).getD 0)
        else finishDate y mo d 0 0
      | _, _, _ => none

/-- Model of parseDateFromFilePath from src/input/structured.ts.  The error
case models the throw of the default branch for an unrecognized structure
value; every other outcome is ok (the source never throws for the four known
structures). -/
def parseDateFromFilePath (relativePath filename : JStr) (struct : String)
    (shouldParseTime : Bool) : Except String (Option CivilDateTime) :=
  let pathParts := splitSep (fun c => c = '/') relativePath
  let filenameWithoutExt := stemOf filename
  if struct = "none" then
    .ok (parseDateFromString filenameWithoutExt .ymdhm shouldParseTime none none none)
  else if struct = "year" then
    .ok (if 1 ≤ pathParts.length then
      match jsParseInt (pathParts.getD 0 []) with
      | some y => parseDateFromString filenameWithoutExt .mdhm shouldParseTime (some y) none none
      | none => none
    else none)
  else if struct = "month" then
    .ok (if 2 ≤ pathParts.length then
      match jsParseInt (pathParts.getD 0 []), jsParseInt (pathParts.getD 1 []) with
      | some y, some m =>
        if 1 ≤ m ∧ m ≤ 12 then
          parseDateFromString filenameWithoutExt .dhm shouldParseTime (some y) (some (m - 1)) none
        else none
      | _, _ => none
    else none)
  else if struct = "day" then
    .ok (if 3 ≤ pathParts.length then
      match jsParseInt (pathParts.getD 0 []), jsParseInt (pathParts.getD 1 []),
            jsParseInt (pathParts.getD 2 []) with
      | some y, some m, some d =>
        if 1 ≤ m ∧ m ≤ 12 ∧ 1 ≤ d ∧ d ≤ 31 then
          parseDateFromString filenameWithoutExt .hm shouldParseTime
            (some y) (some (m - 1)) (some d)
        else none
      | _, _, _ => none
    else none)
  else .error "Unknown input structure specified"

/-! Output constructor (create in output.ts) and its date formats.  The
format tokens of the constants module (not shipped with the sources, but
pinned by the unit tests of the output constructor) are YYYY, M, D,
YYYY-M-D and M-D; dayjs renders YYYY zero-padded to four digits and M, D
without padding. -/

/-- Character of a decimal digit. -/
def digitChar (n : Nat) : Char := Char.ofNat (48 + n)

/-- Fuel-driven digit expansion (structural recursion on the fuel, so that
the definition reduces in the kernel). -/
def digitsOfAux : Nat → Nat → JStr
  | 0, _ => []
  | fuel + 1, n =>
    if n < 10 then [digitChar n]
    else digitsOfAux fuel (n / 10) ++ [digitChar (n % 10)]

/-- Decimal digits of a natural number, most significant first. -/
def digitsOf (n : Nat) : JStr := digitsOfAux (n + 1) n

theorem digitsOfAux_congr :
    ∀ (fuelA fuelB n : Nat), n < fuelA → n < fuelB →
      digitsOfAux fuelA n = digitsOfAux fuelB n := by
  intro fuelA
  induction fuelA with
  | zero => intro fuelB n h; omega
  | succ fuelA ih =>
    intro fuelB n hA hB
    rcases fuelB with _ | fuelB
    · omega
    · simp only [digitsOfAux]
      by_cases h10 : n < 10
      · simp [h10]
      · simp only [h10, if_false]
        rw [ih fuelB (n / 10) (by omega) (by omega)]

/-- Unfolding rule of digitsOf, mirroring the recursive shape of the
rendering. -/
theorem digitsOf_eq (n : Nat) :
    digitsOf n = if n < 10 then [digitChar n]
      else digitsOf (n / 10) ++ [digitChar (n % 10)] := by
  show digitsOfAux (n + 1) n = _
  simp only [digitsOfAux]
  by_cases h10 : n < 10
  · simp [h10]
  · simp only [h10, if_false]
    rw [digitsOfAux_congr n (n / 10 + 1) (n / 10) (by omega) (by omega)]
    rfl

/-- Zero-pad a digit string on the left to the given length. -/
def padTo (len : Nat) (s : JStr) : JStr := List.replicate (len - s.length) '0' ++ s

/-- Rendering of the dayjs token YYYY (year zero-padded to four digits);
model for nonnegative years, the only years the encoder is exercised on. -/
def fmtYYYY (y : Int) : JStr := padTo 4 (digitsOf y.toNat)

/-- Rendering of the dayjs token M (month 1-12, no padding). -/
def fmtM (m : Int) : JStr := digitsOf m.toNat

/-- Rendering of the dayjs token D (day 1-31, no padding). -/
def fmtD (d : Int) : JStr := digitsOf d.toNat

/-- Rendering of the dayjs token HHmm (hour and minute, both zero-padded
to two digits). -/
def fmtHHmm (h mi : Int) : JStr := padTo 2 (digitsOf h.toNat) ++ padTo 2 (digitsOf mi.toNat)

/-- The filesystem structure policy, a closed enumeration in the sources. -/
inductive FilesystemStructure where
  | flat
  | year
  | month
  | day
deriving Repr, DecidableEq

/-- Name of a structure value as the string the walker receives. -/
def structureName : FilesystemStructure → String
  | .flat => "none"
  | .year => "year"
  | .month => "month"
  | .day => "day"

/-- The date fragment the encoder produces for each structure that admits
one; for the day structure the source throws instead (see formatDate). -/
def dateFragment (st : FilesystemStructure) (c : CivilDateTime) : JStr :=
  match st with
  | .flat => fmtYYYY c.year ++ '-' :: fmtM c.month ++ '-' :: fmtD c.day
  | .year => fmtM c.month ++ '-' :: fmtD c.day
  | .month => fmtD c.day
  | .day => []

/-- Model of formatDate from the output constructor: structure none maps to
YYYY-M-D, year to M-D, month to D; an unset structure and the day structure
throw. -/
def formatDate (outputStructure : Option FilesystemStructure) (date : CivilDateTime) :
    Except String JStr :=
  match outputStructure with
  | none => .error "Unable to Create Output: Output structure is not set"
  | some .flat => .ok (dateFragment .flat date)
  | some .year => .ok (dateFragment .year date)
  | some .month => .ok (dateFragment .month date)
  | some .day => .error "Cannot use date in filename when output structure is day"

/-- Characters the subject sanitizer keeps: ASCII alphanumerics, dash,
underscore and dot. -/
def isAllowedFilenameChar (c : Char) : Bool :=
  isAlnumChar c || c = '-' || c = '_' || c = '.'

/-- Models the regex replace of every run of underscores by one underscore
(each adjacent pair of underscores drops one of them, which replaces every
maximal run by a single underscore). -/
def collapseUnderscores : JStr → JStr
  | [] => []
  | [c] => [c]
  | a :: b :: rest =>
    if a = '_' && b = '_' then collapseUnderscores (b :: rest)
    else a :: collapseUnderscores (b :: rest)

/-- Models the regex replace that deletes the leading and the trailing run
of underscores. -/
def trimUnderscores (s : JStr) : JStr :=
  dropEndWhile (fun c => c = '_') (s.dropWhile (fun c => c = '_'))

/-- The literal placeholder used for an empty sanitized subject. -/
def untitledStr : JStr := ['u', 'n', 't', 'i', 't', 'l', 'e', 'd']

/-- Model of sanitizeFilenameString from the output constructor: replace
every disallowed character by an underscore, collapse runs of underscores,
trim leading and trailing underscores, and fall back to the untitled
placeholder when the result is empty. -/
def sanitizeFilenameString (s : JStr) : JStr :=
  let replaced := s.map (fun c => if isAllowedFilenameChar c then c else '_')
  let trimmed := trimUnderscores (collapseUnderscores replaced)
  if trimmed.isEmpty then untitledStr else trimmed

/-- Specification-side restatement of the sanitizer, phrased independently
of the source pipeline: keep the nonempty chunks between underscores of the
character-mapped string and rejoin them with single underscores, falling
back to the untitled placeholder.  Compared with sanitizeFilenameString in
the claim about the sanitizer. -/
def sanitizeSpecification (s : JStr) : JStr :=
  let mapped := s.map (fun c => if isAllowedFilenameChar c then c else '_')
  let chunks := (splitSep (fun c => c = '_') mapped).filter (fun t => !t.isEmpty)
  let joined := joinSep '_' chunks
  if joined.isEmpty then untitledStr else joined

/-- Model of constructFilename from the output constructor: push the date
fragment (may throw via formatDate), the HHmm time fragment, the mandatory
identifier and type tag, and the sanitized subject, then join with dashes. -/
def constructFilename (outputFilenameOptions : List String)
    (outputStructure : Option FilesystemStructure) (date : CivilDateTime)
    (typeTag hash : JStr) (subject : Option JStr) : Except String JStr :=
  match (if outputFilenameOptions.contains "date" then
           (formatDate outputStructure date).map (fun s => [s])
         else .ok []) with
  | .error e => .error e
  | .ok dateParts =>
    let timeParts := if outputFilenameOptions.contains "time" then
      [fmtHHmm date.hour date.minute] else []
    let subjectParts := if outputFilenameOptions.contains "subject" then
      [sanitizeFilenameString (subject.getD [])] else []
    .ok (joinSep '-' (dateParts ++ timeParts ++ [hash, typeTag] ++ subjectParts))

/-- Directory components under the output root added by
constructOutputDirectory for each structure (tokens YYYY, M, D). -/
def outputDirParts (st : FilesystemStructure) (c : CivilDateTime) : List JStr :=
  match st with
  | .flat => []
  | .year => [fmtYYYY c.year]
  | .month => [fmtYYYY c.year, fmtM c.month]
  | .day => [fmtYYYY c.year, fmtM c.month, fmtD c.day]

/-- Model of constructOutputDirectory: requires the root and the structure,
then nests year, month and day directories according to the structure. -/
def constructOutputDirectory (outputDirectory : Option JStr)
    (outputStructure : Option FilesystemStructure) (creationTime : CivilDateTime) :
    Except String JStr :=
  match outputDirectory, outputStructure with
  | none, _ => .error "Unable to Create Output: Output directory is not set"
  | _, none => .error "Unable to Create Output: Output structure is not set"
  | some root, some st => .ok (joinSep '/' (root :: outputDirParts st creationTime))

/-! Round-trip encoding: the pair of directory prefix and filename stem that
the output side produces for a date under a structure.  The stem is the date
fragment tokens, the HHmm fragment when time is encoded, and the mandatory
identifier and type tag that constructFilename always appends (placeholder
tokens x and t). -/

/-- Tokens of the filename stem the encoder produces; joined with dashes
they are the date fragment, the time fragment, the identifier and the type
tag, in the fixed order of constructFilename. -/
def encodeStemTokens (st : FilesystemStructure) (shouldParseTime : Bool)
    (c : CivilDateTime) : List JStr :=
  (match st with
   | .flat => [fmtYYYY c.year, fmtM c.month, fmtD c.day]
   | .year => [fmtM c.month, fmtD c.day]
   | .month => [fmtD c.day]
   | .day => []) ++
  (if shouldParseTime then [fmtHHmm c.hour c.minute] else []) ++ [['x'], ['t']]

/-- The filename stem the encoder produces. -/
def encodeStem (st : FilesystemStructure) (shouldParseTime : Bool)
    (c : CivilDateTime) : JStr :=
  joinSep '-' (encodeStemTokens st shouldParseTime c)

/-- The path of the encoded file relative to the input root: the directory
nesting of constructOutputDirectory followed by the filename stem. -/
def encodeRelativePath (st : FilesystemStructure) (shouldParseTime : Bool)
    (c : CivilDateTime) : JStr :=
  joinSep '/' (outputDirParts st c ++ [encodeStem st shouldParseTime c])

/-! Date-range filter, walker, file enumerator, configuration validation and
file pattern, from src/input/structured.ts, src/util/storage.ts and the
configuration validator. -/

/-- Strict chronological order on civil date-times; for valid civil tuples
the JavaScript Date comparison (on epoch milliseconds) coincides with the
lexicographic order on the components. -/
def civLT (a b : CivilDateTime) : Bool :=
  a.year < b.year || (a.year = b.year && (a.month < b.month ||
    (a.month = b.month && (a.day < b.day || (a.day = b.day && (a.hour < b.hour ||
      (a.hour = b.hour && a.minute < b.minute)))))))

/-- A date range over civil date-times; the source fields are named start
and end (start inclusive, end exclusive).  Both fields are required by the
zod schema of the source. -/
structure CivilDateRange where
  rangeStart : CivilDateTime
  rangeEnd : CivilDateTime
deriving Repr, DecidableEq

/-- Model of isDateInRange: an absent range accepts everything; a date
before the start or not before the end is rejected.  The source arms for a
range with falsy bounds and for unparseable bounds are unreachable here
because the model range always carries two valid dates, as the zod schema
of the source guarantees. -/
def isDateInRange (date : CivilDateTime) (range : Option CivilDateRange) : Bool :=
  match range with
  | none => true
  | some r =>
    if civLT date r.rangeStart then false
    else if !civLT date r.rangeEnd then false
    else true

/-- The calendar utility of src/util/dates.ts bound to one timezone, an
external collaborator of the core: current time, day subtraction, format
parsing and chronological comparison on an abstract date type. -/
structure DatesUtility (α : Type) where
  now : α
  subDays : α → Nat → α
  parseFmt : α → String → α
  isBefore : α → α → Bool

/-- A date range over the abstract date type of a calendar utility. -/
structure AbstractDateRange (α : Type) where
  rangeStart : α
  rangeEnd : α

/-- Model of calculateDateRange: the end defaults to now and the start to
31 days before now; an explicit bound, when present, is parsed with the
format YYYY-M-D and overrides its default; a resolved end before the
resolved start throws an ArgumentError. -/
def calculateDateRange {α : Type} (dateUtil : DatesUtility α)
    (startDate endDate : Option α) : Except String (AbstractDateRange α) :=
  let now := dateUtil.now
  let range : AbstractDateRange α := ⟨dateUtil.subDays now 31, now⟩
  if startDate.isSome || endDate.isSome then
    let resolvedEnd := match endDate with
      | some e => dateUtil.parseFmt e "YYYY-M-D"
      | none => range.rangeEnd
    let resolvedStart := match startDate with
      | some s => dateUtil.parseFmt s "YYYY-M-D"
      | none => range.rangeStart
    if dateUtil.isBefore resolvedEnd resolvedStart then
      .error "Start date cannot be after end date"
    else .ok ⟨resolvedStart, resolvedEnd⟩
  else .ok range

/-- Extension suffix of the last path component, models path.extname on a
full path: empty when the base name has no dot or only a leading dot. -/
def extnameOf (filePath : JStr) : JStr :=
  let base := (splitSep (fun c => c = '/') filePath).getLastD []
  let r := base.reverse
  let ext := r.takeWhile (fun c => c ≠ '.')
  if ext.length = r.length then []
  else if (r.drop (ext.length + 1)).isEmpty then []
  else ('.' :: ext.reverse)

/-- Models path.relative for the only case the walker meets: a file path
lying under the input root, where the result drops the root and the
separator; any other path is returned unchanged. -/
def jsRelative (dir filePath : JStr) : JStr :=
  if !dir.isEmpty && (dir ++ ['/']).isPrefixOf filePath then
    filePath.drop (dir.length + 1)
  else filePath

/-- True when the glob pattern ends in star-dot-star, the condition the
walker uses to skip extensionless files. -/
def patternWantsExt (pattern : JStr) : Bool :=
  pattern.reverse.take 3 = ['*', '.', '*']

/-- Model of processStructuredFile.  The callback is abstracted by the
function callbackOk: true models a normal return, false models a thrown
exception (which the source catches and logs).  The returned boolean is
the processed flag that increments the file count. -/
def processStructuredFile (filePath inputDirectory : JStr) (struct : String)
    (shouldParseTime : Bool) (callbackOk : JStr → Bool) (pattern : JStr)
    (dateRange : Option CivilDateRange) : Bool :=
  if filePath = inputDirectory ∨ ((extnameOf filePath).isEmpty ∧ patternWantsExt pattern) then
    false
  else
    let relativePath := jsRelative inputDirectory filePath
    let pathParts := splitSep (fun c => c = '/') relativePath
    let filename := pathParts.getLastD []
    if filename.isEmpty then false
    else
      match parseDateFromFilePath relativePath filename struct shouldParseTime with
      | .error _ => false
      | .ok none => false
      | .ok (some d) =>
        if isDateInRange d dateRange then callbackOk filePath else false

/-- True exactly when the walker invokes the caller callback on the file:
all skip checks pass, the date decodes, and it lies in the range.  This is
processStructuredFile under a callback that always returns normally. -/
def callbackInvoked (filePath inputDirectory : JStr) (struct : String)
    (shouldParseTime : Bool) (pattern : JStr) (dateRange : Option CivilDateRange) : Bool :=
  processStructuredFile filePath inputDirectory struct shouldParseTime
    (fun _ => true) pattern dateRange

/-- The worker loop of forEachFileIn (sequential model, the default
concurrency of one): pull files from the queue while the processed counter
is below the limit, returning the files the per-file callback is invoked
on, in order. -/
def workerRun {α : Type} : List α → Nat → Nat → List α
  | [], _, _ => []
  | f :: rest, processed, limit =>
    if processed < limit then f :: workerRun rest (processed + 1) limit else []

/-- The effective limit of forEachFileIn: options.limit or the full file
count (a zero limit is falsy in the source and also falls back). -/
def effectiveLimit (limit : Option Nat) (total : Nat) : Nat :=
  match limit with
  | some l => if l = 0 then total else l
  | none => total

/-- Model of forEachFileIn from src/util/storage.ts: the list of candidate
files the per-file callback is invoked on, given the glob result list.  The
source slices the glob result to the limit and runs the worker loop over
the shared queue. -/
def forEachFileInFiles {α : Type} (files : List α) (limit : Option Nat) : List α :=
  let lim := effectiveLimit limit files.length
  workerRun (files.take lim) 0 lim

/-- Model of process from src/input/structured.ts over an abstract
enumerator result: walk the candidate files under the limit, apply
processStructuredFile to each, and return the number of processed files. -/
def processWalk (files : List JStr) (inputDirectory : JStr) (struct : String)
    (shouldParseTime : Bool) (callbackOk : JStr → Bool) (pattern : JStr)
    (dateRange : Option CivilDateRange) (limit : Option Nat) : Nat :=
  ((forEachFileInFiles files limit).filter
    (fun f => processStructuredFile f inputDirectory struct shouldParseTime
      callbackOk pattern dateRange)).length

/-- Model of getFilePattern: a dot-prefixed extension throws; otherwise the
pattern is built from the extensions when the extensions feature is active
and the list is nonempty, and is the generic star-dot-star otherwise. -/
def getFilePattern (features : List String) (extensions : List JStr) :
    Except String JStr :=
  if extensions.any (fun e => e.headD ' ' = '.') then
    .error "Invalid extension format: extensions should not start with a dot"
  else if features.contains "extensions" && !extensions.isEmpty then
    if extensions.length = 1 then
      .ok (['*', '*', '/', '*', '.'] ++ extensions.getD 0 [])
    else
      .ok (['*', '*', '/', '*', '.', '{'] ++ joinSep ',' extensions ++ ['}'])
  else .ok ['*', '*', '/', '*', '.', '*']

/-- The allowed output filename options of the constants module (the spec
defines the FilenameOption enumeration as date, time and subject). -/
def allowedOutputFilenameOptions : List String := ["date", "time", "subject"]

/-- True when the string contains the character. -/
def containsChar (s : JStr) (c : Char) : Bool := s.contains c

/-- Model of validateOutputFilenameOptions from the configuration
validator: reject comma-separated or quoted option lists, unknown options,
and the date option combined with the day output structure. -/
def validateOutputFilenameOptions (outputFilenameOptions : List JStr)
    (outputStructure : Option String) : Except String Unit :=
  if outputFilenameOptions.isEmpty then .ok ()
  else if containsChar (outputFilenameOptions.getD 0 []) ',' then
    .error "Filename options should be space-separated, not comma-separated"
  else if outputFilenameOptions.length = 1 ∧
      2 ≤ (splitSep (fun c => c = ' ') (outputFilenameOptions.getD 0 [])).length then
    .error "Filename options should not be quoted"
  else if !(outputFilenameOptions.filter
      (fun o => !allowedOutputFilenameOptions.contains (String.mk o))).isEmpty then
    .error "Invalid filename options"
  else if outputFilenameOptions.contains ('d' :: 'a' :: 't' :: 'e' :: []) ∧
      outputStructure = some "day" then
    .error "Cannot use date in filename when output structure is day"
  else .ok ()

/-! Malformed-input predicate for the decoder claim. -/

/-- True when parseInt yields NaN on the token (no leading digit run). -/
def nonNumericTok (s : JStr) : Bool := (jsParseInt s).isNone

/-- Month value parsed from a token lies outside 1..12 (false for NaN,
which the non-numeric predicate covers). -/
def monthOutOfRange (o : Option Int) : Bool :=
  match o with
  | some m => decide (m < 1 ∨ 12 < m)
  | none => false

/-- Day value parsed from a token lies outside 1..31. -/
def dayOutOfRange (o : Option Int) : Bool :=
  match o with
  | some d => decide (d < 1 ∨ 31 < d)
  | none => false

/-- Hour or minute of the time token at the given index is numeric but out
of range, after the NaN-to-zero coercion the source applies. -/
def timeOutOfRange (parts : List JStr) (i : Nat) : Bool :=
  let t := parts.getD i []
  decide ((jsParseInt (t.take 2)).getD 0 < 0 ∨ 23 < (jsParseInt (t.take 2)).getD 0 ∨
    (jsParseInt ((t.drop 2).take 2)).getD 0 < 0 ∨ 59 < (jsParseInt ((t.drop 2).take 2)).getD 0)

/-- The malformed-input condition of the decoder claim, per structure: a
required year, month or day token (directory component or filename token)
is non-numeric, a numeric month, day, hour or minute is out of range, or
there are too few tokens for the structure. -/
def malformedInput (st : FilesystemStructure) (shouldParseTime : Bool)
    (relativePath filename : JStr) : Bool :=
  let pathParts := splitSep (fun c => c = '/') relativePath
  let parts := splitSep isSepChar (cleanEnds (stemOf filename))
  match st with
  | .flat =>
    (shouldParseTime && decide (parts.length < 4)) ||
    (!shouldParseTime && decide (parts.length < 3)) ||
    nonNumericTok (parts.getD 0 []) || nonNumericTok (parts.getD 1 []) ||
    nonNumericTok (parts.getD 2 []) ||
    monthOutOfRange (jsParseInt (parts.getD 1 [])) ||
    dayOutOfRange (jsParseInt (parts.getD 2 [])) ||
    (shouldParseTime && timeOutOfRange parts 3)
  | .year =>
    nonNumericTok (pathParts.getD 0 []) ||
    (shouldParseTime && decide (parts.length < 3)) ||
    (!shouldParseTime && decide (parts.length < 2)) ||
    nonNumericTok (parts.getD 0 []) || nonNumericTok (parts.getD 1 []) ||
    monthOutOfRange (jsParseInt (parts.getD 0 [])) ||
    dayOutOfRange (jsParseInt (parts.getD 1 [])) ||
    (shouldParseTime && timeOutOfRange parts 2)
  | .month =>
    decide (pathParts.length < 2) ||
    nonNumericTok (pathParts.getD 0 []) || nonNumericTok (pathParts.getD 1 []) ||
    monthOutOfRange (jsParseInt (pathParts.getD 1 [])) ||
    (shouldParseTime && decide (parts.length < 2)) ||
    nonNumericTok (parts.getD 0 []) ||
    dayOutOfRange (jsParseInt (parts.getD 0 [])) ||
    (shouldParseTime && timeOutOfRange parts 1)
  | .day =>
    decide (pathParts.length < 3) ||
    nonNumericTok (pathParts.getD 0 []) || nonNumericTok (pathParts.getD 1 []) ||
    nonNumericTok (pathParts.getD 2 []) ||
    monthOutOfRange (jsParseInt (pathParts.getD 1 [])) ||
    dayOutOfRange (jsParseInt (pathParts.getD 2 [])) ||
    (shouldParseTime && timeOutOfRange parts 0)

/-! Character-class and digit-string lemmas used by the codec proofs. -/

theorem digitChar_toNat : ∀ k : Nat, k < 10 → (digitChar k).toNat = 48 + k := by
  decide

theorem isDigitChar_digitChar : ∀ k : Nat, k < 10 → isDigitChar (digitChar k) = true := by
  decide

theorem isDigitChar_toNat {c : Char} (h : isDigitChar c = true) :
    48 ≤ c.toNat ∧ c.toNat ≤ 57 := by
  simpa [isDigitChar] using h

theorem digit_not_ws {c : Char} (h : isDigitChar c = true) : isWSChar c = false := by
  have hb := isDigitChar_toNat h
  simp only [isWSChar, decide_eq_false_iff_not]
  omega

theorem digit_alnum {c : Char} (h : isDigitChar c = true) : isAlnumChar c = true := by
  simp [isAlnumChar, h]

theorem digit_toNat_ne {c : Char} (h : isDigitChar c = true) {k : Nat}
    (hk : k < 48 ∨ 57 < k) : c.toNat ≠ k := by
  have hb := isDigitChar_toNat h
  omega

theorem char_ne_of_toNat_ne {c d : Char} (h : c.toNat ≠ d.toNat) : c ≠ d := by
  intro he
  exact h (by rw [he])

theorem digit_not_sep {c : Char} (h : isDigitChar c = true) : isSepChar c = false := by
  have hb := isDigitChar_toNat h
  simp only [isSepChar, Bool.or_eq_false_iff, decide_eq_false_iff_not]
  constructor
  · exact char_ne_of_toNat_ne (by simp; omega)
  · exact char_ne_of_toNat_ne (by simp; omega)

theorem digit_ne_slash {c : Char} (h : isDigitChar c = true) : c ≠ '/' := by
  have hb := isDigitChar_toNat h
  exact char_ne_of_toNat_ne (by simp; omega)

theorem digit_ne_dot {c : Char} (h : isDigitChar c = true) : c ≠ '.' := by
  have hb := isDigitChar_toNat h
  exact char_ne_of_toNat_ne (by simp; omega)

theorem digitsOf_ne_nil (n : Nat) : digitsOf n ≠ [] := by
  rw [digitsOf_eq]
  split <;> simp

theorem digitsOf_all_digits : ∀ n : Nat, ∀ c ∈ digitsOf n, isDigitChar c = true := by
  intro n
  induction n using Nat.strong_induction_on with
  | _ n ih =>
    rw [digitsOf_eq]
    split
    · rename_i h10
      intro c hc
      simp only [List.mem_singleton] at hc
      subst hc
      exact isDigitChar_digitChar n h10
    · rename_i h10
      intro c hc
      rcases List.mem_append.mp hc with h | h
      · exact ih (n / 10) (Nat.div_lt_self (by omega) (by omega)) c h
      · simp only [List.mem_singleton] at h
        subst h
        exact isDigitChar_digitChar (n % 10) (Nat.mod_lt n (by omega))

theorem padTo_all_digits (k n : Nat) : ∀ c ∈ padTo k (digitsOf n), isDigitChar c = true := by
  intro c hc
  rcases List.mem_append.mp hc with h | h
  · rw [List.eq_of_mem_replicate h]
    decide
  · exact digitsOf_all_digits n c h

theorem padTo_ne_nil (k n : Nat) : padTo k (digitsOf n) ≠ [] := by
  unfold padTo
  intro h
  rcases List.append_eq_nil.mp h with ⟨_, h2⟩
  exact digitsOf_ne_nil n h2

/-- Value computed by the parseInt digit fold. -/
theorem digitsOf_foldl (n : Nat) :
    ∀ a : Nat, (digitsOf n).foldl (fun a c => a * 10 + (c.toNat - 48)) a =
      a * 10 ^ (digitsOf n).length + n := by
  induction n using Nat.strong_induction_on with
  | _ n ih =>
    intro a
    rw [digitsOf_eq]
    split
    · rename_i h10
      simp only [List.foldl_cons, List.foldl_nil, List.length_singleton]
      rw [digitChar_toNat n h10]
      ring_nf
      omega
    · rename_i h10
      rw [List.foldl_append, List.length_append]
      simp only [List.foldl_cons, List.foldl_nil, List.length_singleton]
      rw [ih (n / 10) (Nat.div_lt_self (by omega) (by omega)) a]
      rw [digitChar_toNat (n % 10) (Nat.mod_lt n (by omega))]
      have hmod : n % 10 ≤ n := Nat.mod_le n 10
      have hdm : 10 * (n / 10) + n % 10 = n := Nat.div_add_mod n 10
      calc (a * 10 ^ (digitsOf (n / 10)).length + n / 10) * 10 + (48 + n % 10 - 48)
          = a * (10 ^ (digitsOf (n / 10)).length * 10) + (10 * (n / 10) + n % 10) := by ring_nf; omega
        _ = a * 10 ^ ((digitsOf (n / 10)).length + 1) + n := by rw [pow_succ, hdm]

theorem digitsVal_padTo (k n : Nat) : digitsVal (padTo k (digitsOf n)) = n := by
  unfold digitsVal padTo
  rw [List.foldl_append]
  have hz : ∀ j : Nat, (List.replicate j '0').foldl (fun a c => a * 10 + (c.toNat - 48)) 0 = 0 := by
    intro j
    induction j with
    | zero => rfl
    | succ j ihj => simpa [List.replicate_succ] using ihj
  rw [hz]
  simpa using digitsOf_foldl n 0

theorem takeWhile_eq_self_of_all {p : Char → Bool} :
    ∀ l : JStr, (∀ c ∈ l, p c = true) → l.takeWhile p = l := by
  intro l
  induction l with
  | nil => intro _; rfl
  | cons c rest ih =>
    intro h
    rw [List.takeWhile_cons, h c (by simp)]
    simp only [if_true]
    rw [ih (fun x hx => h x (by simp [hx]))]

theorem dropWhile_eq_self_of_head {p : Char → Bool} (l : JStr)
    (h : ∀ c, l.head? = some c → p c = false) : l.dropWhile p = l := by
  cases l with
  | nil => rfl
  | cons c rest =>
    rw [List.dropWhile_cons, h c rfl]
    simp

theorem parseIntDigits_padTo (k n : Nat) :
    parseIntDigits (padTo k (digitsOf n)) = some n := by
  unfold parseIntDigits
  rw [takeWhile_eq_self_of_all _ (padTo_all_digits k n)]
  rw [if_neg (by simpa [List.isEmpty_iff] using padTo_ne_nil k n)]
  rw [digitsVal_padTo]

/-- JavaScript parseInt recovers the value of a zero-padded digit
rendering. -/
theorem jsParseInt_padTo (k n : Nat) :
    jsParseInt (padTo k (digitsOf n)) = some (n : Int) := by
  unfold jsParseInt
  have hall := padTo_all_digits k n
  have hdrop : (padTo k (digitsOf n)).dropWhile isWSChar = padTo k (digitsOf n) := by
    apply dropWhile_eq_self_of_head
    intro c hc
    exact digit_not_ws (hall c (List.mem_of_mem_head? (by simp [hc])))
  rw [hdrop]
  rcases hsh : padTo k (digitsOf n) with _ | ⟨c, rest⟩
  · exact absurd hsh (padTo_ne_nil k n)
  · have hc : isDigitChar c = true := by
      apply hall
      rw [hsh]
      simp
    have hb := isDigitChar_toNat hc
    rw [if_neg]
    · rw [if_neg]
      · rw [← hsh, parseIntDigits_padTo]
        rfl
      · simp only [List.headD_cons]
        exact char_ne_of_toNat_ne (by simp; omega)
    · simp only [List.headD_cons]
      exact char_ne_of_toNat_ne (by simp; omega)

/-- JavaScript parseInt recovers the value of an unpadded digit rendering
(padding with target length zero is the identity). -/
theorem jsParseInt_digitsOf (n : Nat) : jsParseInt (digitsOf n) = some (n : Int) := by
  have h := jsParseInt_padTo 0 n
  simpa [padTo] using h

theorem digitsOf_length_one {n : Nat} (h : n < 10) : (digitsOf n).length = 1 := by
  rw [digitsOf_eq, if_pos h]
  rfl

theorem digitsOf_length_le_two {n : Nat} (h : n < 100) : (digitsOf n).length ≤ 2 := by
  rw [digitsOf_eq]
  split
  · simp
  · rename_i h10
    rw [List.length_append, digitsOf_length_one (by omega)]
    simp

theorem padTo_two_length {n : Nat} (h : n < 100) : (padTo 2 (digitsOf n)).length = 2 := by
  unfold padTo
  rw [List.length_append, List.length_replicate]
  have := digitsOf_length_le_two h
  omega

/-! Split and join lemmas. -/

theorem splitSep_ne_nil (p : Char → Bool) : ∀ l : JStr, splitSep p l ≠ [] := by
  intro l
  induction l with
  | nil => simp [splitSep]
  | cons c rest ih =>
    simp only [splitSep]
    rcases h : splitSep p rest with _ | ⟨t, ts⟩
    · exact absurd h ih
    · simp only [h]
      split <;> simp

theorem splitSep_cons_sep {p : Char → Bool} {c : Char} (hc : p c = true) (l : JStr) :
    splitSep p (c :: l) = [] :: splitSep p l := by
  simp only [splitSep]
  rcases h : splitSep p l with _ | ⟨t, ts⟩
  · exact absurd h (splitSep_ne_nil p l)
  · simp [hc]

theorem splitSep_cons_other {p : Char → Bool} {c : Char} (hc : p c = false) {l : JStr}
    {t : JStr} {ts : List JStr} (h : splitSep p l = t :: ts) :
    splitSep p (c :: l) = (c :: t) :: ts := by
  simp only [splitSep, h, hc]
  simp

theorem splitSep_append_free {p : Char → Bool} :
    ∀ (t : JStr), (∀ c ∈ t, p c = false) →
      ∀ {l : JStr} {h : JStr} {ts : List JStr}, splitSep p l = h :: ts →
        splitSep p (t ++ l) = (t ++ h) :: ts := by
  intro t
  induction t with
  | nil =>
    intro _ l h ts hl
    simpa using hl
  | cons c rest ih =>
    intro hfree l h ts hl
    have hrest := ih (fun x hx => hfree x (by simp [hx])) hl
    have hc : p c = false := hfree c (by simp)
    calc splitSep p ((c :: rest) ++ l) = splitSep p (c :: (rest ++ l)) := by simp
      _ = (c :: (rest ++ h)) :: ts := splitSep_cons_other hc hrest
      _ = ((c :: rest) ++ h) :: ts := by simp

theorem splitSep_free {p : Char → Bool} {t : JStr} (ht : ∀ c ∈ t, p c = false) :
    splitSep p t = [t] := by
  have h := @splitSep_append_free p t ht [] [] [] rfl
  simpa using h

theorem joinSep_cons_cons (sep : Char) (t : JStr) (u : JStr) (ts : List JStr) :
    joinSep sep (t :: u :: ts) = t ++ sep :: joinSep sep (u :: ts) := rfl

/-- Splitting is a left inverse of joining for separator-free fields. -/
theorem splitSep_joinSep {p : Char → Bool} {sep : Char} (hsep : p sep = true) :
    ∀ ts : List JStr, ts ≠ [] → (∀ u ∈ ts, ∀ c ∈ u, p c = false) →
      splitSep p (joinSep sep ts) = ts := by
  intro ts
  induction ts with
  | nil => intro h; exact absurd rfl h
  | cons t rest ih =>
    intro _ hfree
    rcases rest with _ | ⟨u, ts2⟩
    · exact splitSep_free (hfree t (by simp))
    · rw [joinSep_cons_cons]
      have hrec := ih (by simp) (fun v hv c hc => hfree v (by simp [hv]) c hc)
      have happ := @splitSep_append_free p t (hfree t (by simp))
        (sep :: joinSep sep (u :: ts2)) [] (u :: ts2)
        (by rw [splitSep_cons_sep hsep, hrec])
      simpa using happ

theorem mem_joinSep {sep : Char} :
    ∀ {ts : List JStr} {c : Char}, c ∈ joinSep sep ts → c = sep ∨ ∃ u ∈ ts, c ∈ u := by
  intro ts
  induction ts with
  | nil => intro c hc; simp [joinSep] at hc
  | cons t rest ih =>
    intro c hc
    rcases rest with _ | ⟨u, ts2⟩
    · exact Or.inr ⟨t, by simp, hc⟩
    · rw [joinSep_cons_cons] at hc
      rcases List.mem_append.mp hc with h | h
      · exact Or.inr ⟨t, by simp, h⟩
      · rcases List.mem_cons.mp h with h | h
        · exact Or.inl h
        · rcases ih h with h | ⟨v, hv, hcv⟩
          · exact Or.inl h
          · exact Or.inr ⟨v, by simp [List.mem_cons.mp hv], hcv⟩

theorem joinSep_head? {sep : Char} {t : JStr} (ht : t ≠ []) (ts : List JStr) :
    (joinSep sep (t :: ts)).head? = t.head? := by
  rcases ts with _ | ⟨u, ts2⟩
  · rfl
  · rw [joinSep_cons_cons]
    rcases t with _ | ⟨c, r⟩
    · exact absurd rfl ht
    · simp

theorem joinSep_ne_nil {sep : Char} {t : JStr} (ht : t ≠ []) (ts : List JStr) :
    joinSep sep (t :: ts) ≠ [] := by
  rcases ts with _ | ⟨u, ts2⟩
  · exact ht
  · rw [joinSep_cons_cons]
    rcases t with _ | ⟨c, r⟩
    · exact absurd rfl ht
    · simp

theorem joinSep_getLast? {sep : Char} {t : JStr} (ht : t ≠ []) :
    ∀ ts : List JStr, (joinSep sep (ts ++ [t])).getLast? = t.getLast? := by
  intro ts
  induction ts with
  | nil => rfl
  | cons a rest ih =>
    have hne : rest ++ [t] ≠ [] := by simp
    rcases hsh : rest ++ [t] with _ | ⟨u, ts2⟩
    · exact absurd hsh hne
    · calc (joinSep sep ((a :: rest) ++ [t])).getLast?
          = (a ++ sep :: joinSep sep (u :: ts2)).getLast? := by
            rw [List.cons_append, hsh, joinSep_cons_cons]
        _ = (sep :: joinSep sep (u :: ts2)).getLast? :=
            List.getLast?_append_of_ne_nil a (by simp)
        _ = (joinSep sep (u :: ts2)).getLast? := by
            rcases hj : joinSep sep (u :: ts2) with _ | ⟨d, ds⟩
            · exfalso
              rcases ts2 with _ | ⟨v, ts3⟩
              · have hlen := congrArg List.length hsh
                simp only [List.length_append, List.length_singleton, List.length_cons,
                  List.length_nil] at hlen
                have hrest : rest = [] := List.eq_nil_of_length_eq_zero (by omega)
                subst hrest
                simp only [List.nil_append, List.cons.injEq] at hsh
                have hju : joinSep sep [u] = u := rfl
                rw [hju] at hj
                exact ht (by rw [hsh.1, hj])
              · rw [joinSep_cons_cons] at hj
                exact absurd hj (by simp)
            · exact List.getLast?_cons_cons
        _ = t.getLast? := by rw [← hsh]; exact ih

/-! Clean-ends, stem and time-token lemmas. -/

theorem cleanEnds_eq_self {s : JStr}
    (h1 : ∀ c, s.head? = some c → isAlnumChar c = true)
    (h2 : ∀ c, s.getLast? = some c → isAlnumChar c = true) :
    cleanEnds s = s := by
  unfold cleanEnds dropEndWhile
  rw [dropWhile_eq_self_of_head s (fun c hc => by simp [h1 c hc])]
  rw [dropWhile_eq_self_of_head s.reverse
    (fun c hc => by simp [h2 c (by rwa [List.head?_reverse] at hc)])]
  exact s.reverse_reverse

theorem stemOf_eq_self {s : JStr} (h : ∀ c ∈ s, c ≠ '.') : stemOf s = s := by
  have hx : s.reverse.takeWhile (fun c => decide (c ≠ '.')) = s.reverse :=
    takeWhile_eq_self_of_all s.reverse
      (fun c hc => decide_eq_true (h c (List.mem_reverse.mp hc)))
  unfold stemOf
  dsimp only
  rw [hx]
  simp

/-- Hour and minute recovered from the rendered HHmm token. -/
theorem parseTimeToken_fmtHHmm {h mi : Int} (hh : 0 ≤ h ∧ h ≤ 23) (hm : 0 ≤ mi ∧ mi ≤ 59) :
    parseTimeToken (fmtHHmm h mi) = some (h, mi) := by
  unfold parseTimeToken fmtHHmm
  have hlh : (padTo 2 (digitsOf h.toNat)).length = 2 := padTo_two_length (by omega)
  have hlm : (padTo 2 (digitsOf mi.toNat)).length = 2 := padTo_two_length (by omega)
  have hlen : (padTo 2 (digitsOf h.toNat) ++ padTo 2 (digitsOf mi.toNat)).length = 4 := by
    rw [List.length_append, hlh, hlm]
  rw [if_neg (by omega)]
  have htake := List.take_left (padTo 2 (digitsOf h.toNat)) (padTo 2 (digitsOf mi.toNat))
  have hdrop := List.drop_left (padTo 2 (digitsOf h.toNat)) (padTo 2 (digitsOf mi.toNat))
  rw [hlh] at htake hdrop
  rw [htake, hdrop, List.take_of_length_le (by omega)]
  rw [jsParseInt_padTo, jsParseInt_padTo]
  simp [Int.toNat_of_nonneg hh.1, Int.toNat_of_nonneg hm.1]

theorem fmtHHmm_all_digits (h mi : Int) : ∀ c ∈ fmtHHmm h mi, isDigitChar c = true := by
  intro c hc
  rcases List.mem_append.mp hc with hx | hx
  · exact padTo_all_digits 2 _ c hx
  · exact padTo_all_digits 2 _ c hx

/-- Every character of every token the encoder emits is an ASCII digit or
one of the placeholder letters x and t. -/
theorem encodeStemTokens_chars (st : FilesystemStructure) (sPT : Bool) (c : CivilDateTime) :
    ∀ u ∈ encodeStemTokens st sPT c, ∀ ch ∈ u,
      isDigitChar ch = true ∨ ch = 'x' ∨ ch = 't' := by
  intro u hu ch hch
  unfold encodeStemTokens at hu
  rcases List.mem_append.mp hu with hx | hx
  · rcases List.mem_append.mp hx with hy | hy
    · refine Or.inl ?_
      rcases st with _ | _ | _ | _
      · rcases List.mem_cons.mp hy with h | h
        · rw [h] at hch
          exact padTo_all_digits 4 c.year.toNat ch hch
        · rcases List.mem_cons.mp h with h2 | h2
          · rw [h2] at hch
            exact digitsOf_all_digits c.month.toNat ch hch
          · rw [List.mem_singleton.mp h2] at hch
            exact digitsOf_all_digits c.day.toNat ch hch
      · rcases List.mem_cons.mp hy with h | h
        · rw [h] at hch
          exact digitsOf_all_digits c.month.toNat ch hch
        · rw [List.mem_singleton.mp h] at hch
          exact digitsOf_all_digits c.day.toNat ch hch
      · rw [List.mem_singleton.mp hy] at hch
        exact digitsOf_all_digits c.day.toNat ch hch
      · simp at hy
    · have hu2 : u = fmtHHmm c.hour c.minute := by
        rcases sPT with _ | _
        · simp at hy
        · simpa using hy
      rw [hu2] at hch
      exact Or.inl (fmtHHmm_all_digits c.hour c.minute ch hch)
  · rcases List.mem_cons.mp hx with h | h
    · rw [h] at hch
      exact Or.inr (Or.inl (List.mem_singleton.mp hch))
    · rw [List.mem_singleton.mp h] at hch
      exact Or.inr (Or.inr (List.mem_singleton.mp hch))

theorem daysInMonth_le_31 (y m : Int) : daysInMonth y m ≤ 31 := by
  unfold daysInMonth
  split
  · split <;> omega
  · split <;> omega

/-- The verification step accepts exactly the calendar-valid components
with a year of at least 100 (smaller years collide with the two-digit rule
of Date.UTC). -/
theorem finishDate_of_valid {y m d h mi : Int} (hy : 100 ≤ y)
    (hm : 1 ≤ m ∧ m ≤ 12) (hd : 1 ≤ d ∧ d ≤ daysInMonth y m)
    (hh : 0 ≤ h ∧ h ≤ 23) (hmi : 0 ≤ mi ∧ mi ≤ 59) :
    finishDate y (m - 1) d h mi = some ⟨y, m, d, h, mi⟩ := by
  unfold finishDate
  have h31 : daysInMonth y m ≤ 31 := daysInMonth_le_31 y m
  rw [if_neg (by omega)]
  rw [if_neg (by omega)]
  have hmm : m - 1 + 1 = m := by omega
  rw [hmm]
  rw [if_neg (by omega)]

theorem jsParseInt_fmtYYYY {y : Int} (hy : 0 ≤ y) : jsParseInt (fmtYYYY y) = some y := by
  unfold fmtYYYY
  rw [jsParseInt_padTo]
  rw [Int.toNat_of_nonneg hy]

theorem jsParseInt_fmtM {m : Int} (hm : 0 ≤ m) : jsParseInt (fmtM m) = some m := by
  unfold fmtM
  rw [jsParseInt_digitsOf]
  rw [Int.toNat_of_nonneg hm]

theorem jsParseInt_fmtD {d : Int} (hd : 0 ≤ d) : jsParseInt (fmtD d) = some d := by
  unfold fmtD
  rw [jsParseInt_digitsOf]
  rw [Int.toNat_of_nonneg hd]

theorem encodeStemTokens_tokens_ne_nil (st : FilesystemStructure) (sPT : Bool)
    (c : CivilDateTime) : ∀ u ∈ encodeStemTokens st sPT c, u ≠ [] := by
  intro u hu
  unfold encodeStemTokens at hu
  rcases List.mem_append.mp hu with hx | hx
  · rcases List.mem_append.mp hx with hy | hy
    · rcases st with _ | _ | _ | _
      · rcases List.mem_cons.mp hy with h | h
        · rw [h]; exact padTo_ne_nil 4 _
        · rcases List.mem_cons.mp h with h2 | h2
          · rw [h2]; exact digitsOf_ne_nil _
          · rw [List.mem_singleton.mp h2]; exact digitsOf_ne_nil _
      · rcases List.mem_cons.mp hy with h | h
        · rw [h]; exact digitsOf_ne_nil _
        · rw [List.mem_singleton.mp h]; exact digitsOf_ne_nil _
      · rw [List.mem_singleton.mp hy]; exact digitsOf_ne_nil _
      · simp at hy
    · have hu2 : u = fmtHHmm c.hour c.minute := by
        rcases sPT with _ | _
        · simp at hy
        · simpa using hy
      rw [hu2]
      unfold fmtHHmm
      intro hcon
      rcases List.append_eq_nil.mp hcon with ⟨h1, _⟩
      exact padTo_ne_nil 2 _ h1
  · rcases List.mem_cons.mp hx with h | h
    · rw [h]; simp
    · rw [List.mem_singleton.mp h]; simp

theorem encodeStemTokens_ne_nil (st : FilesystemStructure) (sPT : Bool)
    (c : CivilDateTime) : encodeStemTokens st sPT c ≠ [] := by
  unfold encodeStemTokens
  simp

theorem encodeStemTokens_sep_free (st : FilesystemStructure) (sPT : Bool)
    (c : CivilDateTime) :
    ∀ u ∈ encodeStemTokens st sPT c, ∀ ch ∈ u, isSepChar ch = false := by
  intro u hu ch hch
  rcases encodeStemTokens_chars st sPT c u hu ch hch with h | h | h
  · exact digit_not_sep h
  · rw [h]; decide
  · rw [h]; decide

theorem encodeStem_chars (st : FilesystemStructure) (sPT : Bool) (c : CivilDateTime) :
    ∀ ch ∈ encodeStem st sPT c,
      isDigitChar ch = true ∨ ch = 'x' ∨ ch = 't' ∨ ch = '-' := by
  intro ch hch
  rcases mem_joinSep hch with h | ⟨u, hu, hcu⟩
  · exact Or.inr (Or.inr (Or.inr h))
  · rcases encodeStemTokens_chars st sPT c u hu ch hcu with h | h | h
    · exact Or.inl h
    · exact Or.inr (Or.inl h)
    · exact Or.inr (Or.inr (Or.inl h))

theorem encode_stemOf (st : FilesystemStructure) (sPT : Bool) (c : CivilDateTime) :
    stemOf (encodeStem st sPT c) = encodeStem st sPT c := by
  apply stemOf_eq_self
  intro ch hch
  rcases encodeStem_chars st sPT c ch hch with h | h | h | h
  · exact digit_ne_dot h
  · rw [h]; simp
  · rw [h]; simp
  · rw [h]; simp

theorem encodeStem_not_empty (st : FilesystemStructure) (sPT : Bool) (c : CivilDateTime) :
    (encodeStem st sPT c).isEmpty = false := by
  unfold encodeStem
  rcases htoks : encodeStemTokens st sPT c with _ | ⟨t0, rest⟩
  · exact absurd htoks (encodeStemTokens_ne_nil st sPT c)
  · have ht0 : t0 ≠ [] :=
      encodeStemTokens_tokens_ne_nil st sPT c t0 (by rw [htoks]; simp)
    have := @joinSep_ne_nil '-' t0 ht0 rest
    rcases hj : joinSep '-' (t0 :: rest) with _ | _
    · exact absurd hj this
    · simp

/-- The stem survives the extension strip, the end cleaning, and splits
back into exactly the encoded tokens. -/
theorem encode_parts (st : FilesystemStructure) (sPT : Bool) (c : CivilDateTime) :
    splitSep isSepChar (cleanEnds (stemOf (encodeStem st sPT c))) =
      encodeStemTokens st sPT c := by
  have hchars := encodeStem_chars st sPT c
  rw [encode_stemOf]
  rcases htoks : encodeStemTokens st sPT c with _ | ⟨t0, rest⟩
  · exact absurd htoks (encodeStemTokens_ne_nil st sPT c)
  · have ht0 : t0 ≠ [] :=
      encodeStemTokens_tokens_ne_nil st sPT c t0 (by rw [htoks]; simp)
    have hclean : cleanEnds (encodeStem st sPT c) = encodeStem st sPT c := by
      apply cleanEnds_eq_self
      · intro ch hch
        have hmem : ch ∈ encodeStem st sPT c := List.mem_of_mem_head? (by simp [hch])
        rcases hchars ch hmem with h | h | h | h
        · exact digit_alnum h
        · rw [h]; decide
        · rw [h]; decide
        · exfalso
          unfold encodeStem at hch
          rw [htoks] at hch
          rw [joinSep_head? ht0 rest] at hch
          have : ch ∈ t0 := List.mem_of_mem_head? (by simp [hch])
          have hsf := encodeStemTokens_sep_free st sPT c t0 (by rw [htoks]; simp) ch this
          rw [h] at hsf
          simp [isSepChar] at hsf
      · intro ch hch
        have hlast : (encodeStem st sPT c).getLast? = some 't' := by
          unfold encodeStem
          have hshape : encodeStemTokens st sPT c =
              ((match st with
                | .flat => [fmtYYYY c.year, fmtM c.month, fmtD c.day]
                | .year => [fmtM c.month, fmtD c.day]
                | .month => [fmtD c.day]
                | .day => []) ++
               (if sPT then [fmtHHmm c.hour c.minute] else []) ++ [['x']]) ++ [['t']] := by
            unfold encodeStemTokens
            rcases st with _ | _ | _ | _ <;> rcases sPT with _ | _ <;> rfl
          rw [hshape]
          rw [joinSep_getLast? (by simp) _]
          rfl
        rw [hlast] at hch
        injection hch with hch2
        rw [← hch2]
        decide
    rw [hclean, ← htoks]
    exact splitSep_joinSep (by decide) _ (encodeStemTokens_ne_nil st sPT c)
      (encodeStemTokens_sep_free st sPT c)

/-- The encoded relative path splits back into the directory components
followed by the stem. -/
theorem encode_pathParts (st : FilesystemStructure) (sPT : Bool) (c : CivilDateTime) :
    splitSep (fun ch => ch = '/') (encodeRelativePath st sPT c) =
      outputDirParts st c ++ [encodeStem st sPT c] := by
  unfold encodeRelativePath
  apply splitSep_joinSep (by decide)
  · simp
  · intro u hu ch hch
    rcases List.mem_append.mp hu with hx | hx
    · have hdig : isDigitChar ch = true := by
        unfold outputDirParts at hx
        rcases st with _ | _ | _ | _
        · simp at hx
        · rw [List.mem_singleton.mp hx] at hch
          exact padTo_all_digits 4 _ ch hch
        · rcases List.mem_cons.mp hx with h | h
          · rw [h] at hch
            exact padTo_all_digits 4 _ ch hch
          · rw [List.mem_singleton.mp h] at hch
            exact digitsOf_all_digits _ ch hch
        · rcases List.mem_cons.mp hx with h | h
          · rw [h] at hch
            exact padTo_all_digits 4 _ ch hch
          · rcases List.mem_cons.mp h with h2 | h2
            · rw [h2] at hch
              exact digitsOf_all_digits _ ch hch
            · rw [List.mem_singleton.mp h2] at hch
              exact digitsOf_all_digits _ ch hch
      exact decide_eq_false (digit_ne_slash hdig)
    · rw [List.mem_singleton.mp hx] at hch
      rcases mem_joinSep hch with h | ⟨u2, hu2, hcu2⟩
      · rw [h]; decide
      · rcases encodeStemTokens_chars st sPT c u2 hu2 ch hcu2 with h | h | h
        · exact decide_eq_false (digit_ne_slash h)
        · rw [h]; decide
        · rw [h]; decide

theorem parseDateFromFilePath_none (rel fn : JStr) (sPT : Bool) :
    parseDateFromFilePath rel fn "none" sPT =
      .ok (parseDateFromString (stemOf fn) .ymdhm sPT none none none) := rfl

theorem parseDateFromFilePath_year (rel fn : JStr) (sPT : Bool) :
    parseDateFromFilePath rel fn "year" sPT =
      .ok (if 1 ≤ (splitSep (fun c => c = '/') rel).length then
        match jsParseInt ((splitSep (fun c => c = '/') rel).getD 0 []) with
        | some y => parseDateFromString (stemOf fn) .mdhm sPT (some y) none none
        | none => none
      else none) := rfl

theorem parseDateFromFilePath_month (rel fn : JStr) (sPT : Bool) :
    parseDateFromFilePath rel fn "month" sPT =
      .ok (if 2 ≤ (splitSep (fun c => c = '/') rel).length then
        match jsParseInt ((splitSep (fun c => c = '/') rel).getD 0 []),
              jsParseInt ((splitSep (fun c => c = '/') rel).getD 1 []) with
        | some y, some m =>
          if 1 ≤ m ∧ m ≤ 12 then
            parseDateFromString (stemOf fn) .dhm sPT (some y) (some (m - 1)) none
          else none
        | _, _ => none
      else none) := rfl

theorem parseDateFromFilePath_day (rel fn : JStr) (sPT : Bool) :
    parseDateFromFilePath rel fn "day" sPT =
      .ok (if 3 ≤ (splitSep (fun c => c = '/') rel).length then
        match jsParseInt ((splitSep (fun c => c = '/') rel).getD 0 []),
              jsParseInt ((splitSep (fun c => c = '/') rel).getD 1 []),
              jsParseInt ((splitSep (fun c => c = '/') rel).getD 2 []) with
        | some y, some m, some d =>
          if 1 ≤ m ∧ m ≤ 12 ∧ 1 ≤ d ∧ d ≤ 31 then
            parseDateFromString (stemOf fn) .hm sPT (some y) (some (m - 1)) (some d)
          else none
        | _, _, _ => none
      else none) := rfl

/-- C1 counterexample: the inputs are calendar-valid (June 5 of year 50,
midnight), yet decoding the encoded pair returns the null sentinel instead
of the original date, because Date.UTC maps years 0 to 99 to 1900 to 1999
and the construct-then-verify step of the decoder then rejects the date. -/
theorem claim1_counterexample :
    parseDateFromFilePath (encodeRelativePath .flat false ⟨50, 6, 5, 0, 0⟩)
        (encodeStem .flat false ⟨50, 6, 5, 0, 0⟩) (structureName .flat) false =
      .ok none ∧
    (Except.ok (Option.none) :
        Except String (Option CivilDateTime)) ≠
      .ok (some ⟨50, 6, 5, 0, 0⟩) := by
  constructor
  · rfl
  · simp

/-- C1 amended: for every calendar-valid date with a year in 100..9999 and
every structure, encoding the date as a directory prefix plus filename stem
and decoding the pair with the same structure and the same shouldParseTime
flag recovers the original date, with the time forced to 00:00 when
shouldParseTime is false.  Years 0..99 are excluded: the two-digit-year
rule of Date.UTC makes the decoder reject them (see the counterexample). -/
theorem claim1_roundtrip (st : FilesystemStructure) (sPT : Bool) (c : CivilDateTime)
    (hy : 100 ≤ c.year ∧ c.year ≤ 9999) (hm : 1 ≤ c.month ∧ c.month ≤ 12)
    (hd : 1 ≤ c.day ∧ c.day ≤ daysInMonth c.year c.month)
    (hh : 0 ≤ c.hour ∧ c.hour ≤ 23) (hmi : 0 ≤ c.minute ∧ c.minute ≤ 59) :
    parseDateFromFilePath (encodeRelativePath st sPT c) (encodeStem st sPT c)
        (structureName st) sPT =
      .ok (some ⟨c.year, c.month, c.day, if sPT then c.hour else 0,
                 if sPT then c.minute else 0⟩) := by
  have hparts := encode_parts st sPT c
  rw [encode_stemOf] at hparts
  have hpath := encode_pathParts st sPT c
  rcases st with _ | _ | _ | _
  · -- structure none
    simp only [encodeStemTokens, List.cons_append, List.nil_append] at hparts
    rw [show structureName .flat = "none" from rfl, parseDateFromFilePath_none]
    unfold parseDateFromString
    rw [encode_stemOf, encodeStem_not_empty]
    dsimp only
    rcases sPT with _ | _
    · simp at hparts
      rw [hparts]
      simp only [List.length_cons, List.length_nil, List.getD_cons_zero, List.getD_cons_succ]
      rw [jsParseInt_fmtYYYY (by omega), jsParseInt_fmtM (by omega), jsParseInt_fmtD (by omega)]
      norm_num
      rw [finishDate_of_valid (by omega) hm hd (by omega) (by omega)]
    · simp at hparts
      rw [hparts]
      simp only [List.length_cons, List.length_nil, List.getD_cons_zero, List.getD_cons_succ]
      rw [jsParseInt_fmtYYYY (by omega), jsParseInt_fmtM (by omega), jsParseInt_fmtD (by omega),
        parseTimeToken_fmtHHmm hh hmi]
      norm_num
      rw [finishDate_of_valid (by omega) hm hd hh hmi]
  · -- structure year
    simp only [encodeStemTokens, List.cons_append, List.nil_append] at hparts
    rw [show structureName .year = "year" from rfl, parseDateFromFilePath_year]
    simp only [outputDirParts, List.cons_append, List.nil_append] at hpath
    rw [hpath]
    simp only [List.length_cons, List.length_nil, List.getD_cons_zero]
    rw [if_pos (by omega), jsParseInt_fmtYYYY (by omega)]
    unfold parseDateFromString
    rw [encode_stemOf, encodeStem_not_empty]
    dsimp only
    rcases sPT with _ | _
    · simp at hparts
      rw [hparts]
      simp only [List.length_cons, List.length_nil, List.getD_cons_zero, List.getD_cons_succ]
      rw [jsParseInt_fmtM (by omega), jsParseInt_fmtD (by omega)]
      norm_num
      rw [finishDate_of_valid (by omega) hm hd (by omega) (by omega)]
    · simp at hparts
      rw [hparts]
      simp only [List.length_cons, List.length_nil, List.getD_cons_zero, List.getD_cons_succ]
      rw [jsParseInt_fmtM (by omega), jsParseInt_fmtD (by omega),
        parseTimeToken_fmtHHmm hh hmi]
      norm_num
      rw [finishDate_of_valid (by omega) hm hd hh hmi]
  · -- structure month
    simp only [encodeStemTokens, List.cons_append, List.nil_append] at hparts
    rw [show structureName .month = "month" from rfl, parseDateFromFilePath_month]
    simp only [outputDirParts, List.cons_append, List.nil_append] at hpath
    rw [hpath]
    simp only [List.length_cons, List.length_nil, List.getD_cons_zero, List.getD_cons_succ]
    rw [if_pos (by omega), jsParseInt_fmtYYYY (by omega), jsParseInt_fmtM (by omega)]
    dsimp only
    rw [if_pos hm]
    unfold parseDateFromString
    rw [encode_stemOf, encodeStem_not_empty]
    dsimp only
    have hmm : c.month - 1 + 1 = c.month := by omega
    rcases sPT with _ | _
    · simp at hparts
      rw [hparts]
      simp only [List.length_cons, List.length_nil, List.getD_cons_zero, List.getD_cons_succ]
      rw [jsParseInt_fmtD (by omega)]
      norm_num
      rw [finishDate_of_valid (by omega) hm hd (by omega) (by omega)]
    · simp at hparts
      rw [hparts]
      simp only [List.length_cons, List.length_nil, List.getD_cons_zero, List.getD_cons_succ]
      rw [jsParseInt_fmtD (by omega), parseTimeToken_fmtHHmm hh hmi]
      norm_num
      rw [finishDate_of_valid (by omega) hm hd hh hmi]
  · -- structure day
    simp only [encodeStemTokens, List.cons_append, List.nil_append] at hparts
    rw [show structureName .day = "day" from rfl, parseDateFromFilePath_day]
    simp only [outputDirParts, List.cons_append, List.nil_append] at hpath
    rw [hpath]
    simp only [List.length_cons, List.length_nil, List.getD_cons_zero, List.getD_cons_succ]
    rw [if_pos (by omega), jsParseInt_fmtYYYY (by omega), jsParseInt_fmtM (by omega),
      jsParseInt_fmtD (by omega)]
    have h31 : daysInMonth c.year c.month ≤ 31 := daysInMonth_le_31 c.year c.month
    dsimp only
    have hcond : 1 ≤ c.month ∧ c.month ≤ 12 ∧ 1 ≤ c.day ∧ c.day ≤ 31 := by omega
    rw [if_pos hcond]
    unfold parseDateFromString
    rw [encode_stemOf, encodeStem_not_empty]
    dsimp only
    rcases sPT with _ | _
    · simp at hparts
      rw [hparts]
      norm_num
      rw [finishDate_of_valid (by omega) hm hd (by omega) (by omega)]
    · simp at hparts
      rw [hparts]
      simp only [List.length_cons, List.length_nil, List.getD_cons_zero, List.getD_cons_succ]
      norm_num
      have hlen : (fmtHHmm c.hour c.minute).length = 4 := by
        unfold fmtHHmm
        rw [List.length_append, padTo_two_length (by omega), padTo_two_length (by omega)]
      refine ⟨hlen, ?_⟩
      have hpt := parseTimeToken_fmtHHmm hh hmi
      unfold parseTimeToken at hpt
      rw [if_neg (by omega)] at hpt
      injection hpt with hpt2
      have hhv : (jsParseInt ((fmtHHmm c.hour c.minute).take 2)).getD 0 = c.hour := by
        have := congrArg Prod.fst hpt2
        simpa using this
      have hmv : (jsParseInt (((fmtHHmm c.hour c.minute).drop 2).take 2)).getD 0 = c.minute := by
        have := congrArg Prod.snd hpt2
        simpa using this
      rw [hhv, hmv]
      rw [finishDate_of_valid (by omega) hm hd hh hmi]

/-- C1 witness. -/
theorem claim1_roundtrip_witness :
    parseDateFromFilePath (encodeRelativePath .year true ⟨2022, 1, 15, 8, 30⟩)
        (encodeStem .year true ⟨2022, 1, 15, 8, 30⟩) (structureName .year) true =
      .ok (some ⟨2022, 1, 15, 8, 30⟩) := by
  have h := claim1_roundtrip .year true ⟨2022, 1, 15, 8, 30⟩
    (by constructor <;> decide) (by constructor <;> decide)
    (by constructor <;> decide) (by constructor <;> decide)
    (by constructor <;> decide)
  simpa using h

theorem finishDate_none_of_out {y mo d hh mi : Int}
    (h : mo < 0 ∨ 11 < mo ∨ d < 1 ∨ 31 < d ∨ hh < 0 ∨ 23 < hh ∨ mi < 0 ∨ 59 < mi) :
    finishDate y mo d hh mi = none := by
  unfold finishDate
  rw [if_pos h]

theorem pds_ymdhm_none (ds : JStr) (sPT : Bool)
    (hmal : ((sPT && decide ((splitSep isSepChar (cleanEnds ds)).length < 4)) ||
      (!sPT && decide ((splitSep isSepChar (cleanEnds ds)).length < 3)) ||
      nonNumericTok ((splitSep isSepChar (cleanEnds ds)).getD 0 []) ||
      nonNumericTok ((splitSep isSepChar (cleanEnds ds)).getD 1 []) ||
      nonNumericTok ((splitSep isSepChar (cleanEnds ds)).getD 2 []) ||
      monthOutOfRange (jsParseInt ((splitSep isSepChar (cleanEnds ds)).getD 1 [])) ||
      dayOutOfRange (jsParseInt ((splitSep isSepChar (cleanEnds ds)).getD 2 [])) ||
      (sPT && timeOutOfRange (splitSep isSepChar (cleanEnds ds)) 3)) = true) :
    parseDateFromString ds .ymdhm sPT none none none = none := by
  unfold parseDateFromString
  split
  · rfl
  dsimp only
  split
  · rfl
  split
  · rfl
  rename_i hg1 hg2
  split
  · rename_i y0 mo1 d0 heq0 heq1 heq2
    split
    · rename_i hsp
      split
      · rfl
      · rename_i pr h0 mi0 hpt
        unfold parseTimeToken at hpt
        split at hpt
        · exact absurd hpt (by simp)
        · rename_i hlen4
          injection hpt with hpt2
          obtain ⟨hA, hB⟩ := Prod.mk.injEq .. |>.mp hpt2
          subst hA
          subst hB
          apply finishDate_none_of_out
          simp only [hsp, heq0, heq1, heq2, nonNumericTok, Option.isNone_none, Option.isNone_some,
            monthOutOfRange, dayOutOfRange, timeOutOfRange, Bool.true_and, Bool.not_true,
            Bool.false_and, Bool.or_false, Bool.false_or, Bool.or_eq_true,
            decide_eq_true_eq] at hmal
          simp only [hsp, Bool.true_and, decide_eq_true_eq] at hg1
          omega
    · rename_i hsp
      have hspf : sPT = false := by
        rcases sPT with _ | _
        · rfl
        · exact absurd rfl hsp
      apply finishDate_none_of_out
      simp only [hspf, heq0, heq1, heq2, nonNumericTok, Option.isNone_none, Option.isNone_some,
        monthOutOfRange, dayOutOfRange, timeOutOfRange, Bool.false_and, Bool.not_false,
        Bool.true_and, Bool.or_false, Bool.false_or, Bool.or_eq_true, decide_eq_true_eq] at hmal
      simp only [hspf, Bool.not_false, Bool.true_and, decide_eq_true_eq] at hg2
      omega
  · rfl

theorem pds_mdhm_none (ds : JStr) (sPT : Bool) (y : Int)
    (hmal : ((sPT && decide ((splitSep isSepChar (cleanEnds ds)).length < 3)) ||
      (!sPT && decide ((splitSep isSepChar (cleanEnds ds)).length < 2)) ||
      nonNumericTok ((splitSep isSepChar (cleanEnds ds)).getD 0 []) ||
      nonNumericTok ((splitSep isSepChar (cleanEnds ds)).getD 1 []) ||
      monthOutOfRange (jsParseInt ((splitSep isSepChar (cleanEnds ds)).getD 0 [])) ||
      dayOutOfRange (jsParseInt ((splitSep isSepChar (cleanEnds ds)).getD 1 [])) ||
      (sPT && timeOutOfRange (splitSep isSepChar (cleanEnds ds)) 2)) = true) :
    parseDateFromString ds .mdhm sPT (some y) none none = none := by
  unfold parseDateFromString
  split
  · rfl
  dsimp only
  split
  · rfl
  split
  · rfl
  rename_i hg1 hg2
  split
  · rename_i mo1 d0 heq0 heq1
    split
    · rename_i hsp
      split
      · rfl
      · rename_i pr h0 mi0 hpt
        unfold parseTimeToken at hpt
        split at hpt
        · exact absurd hpt (by simp)
        · rename_i hlen4
          injection hpt with hpt2
          obtain ⟨hA, hB⟩ := Prod.mk.injEq .. |>.mp hpt2
          subst hA
          subst hB
          apply finishDate_none_of_out
          simp only [hsp, heq0, heq1, nonNumericTok, Option.isNone_none, Option.isNone_some,
            monthOutOfRange, dayOutOfRange, timeOutOfRange, Bool.true_and, Bool.not_true,
            Bool.false_and, Bool.or_false, Bool.false_or, Bool.or_eq_true,
            decide_eq_true_eq] at hmal
          simp only [hsp, Bool.true_and, decide_eq_true_eq] at hg1
          omega
    · rename_i hsp
      have hspf : sPT = false := by
        rcases sPT with _ | _
        · rfl
        · exact absurd rfl hsp
      apply finishDate_none_of_out
      simp only [hspf, heq0, heq1, nonNumericTok, Option.isNone_none, Option.isNone_some,
        monthOutOfRange, dayOutOfRange, timeOutOfRange, Bool.false_and, Bool.not_false,
        Bool.true_and, Bool.or_false, Bool.false_or, Bool.or_eq_true, decide_eq_true_eq] at hmal
      simp only [hspf, Bool.not_false, Bool.true_and, decide_eq_true_eq] at hg2
      omega
  · rfl

theorem pds_dhm_none (ds : JStr) (sPT : Bool) (y mo : Int)
    (hmal : ((sPT && decide ((splitSep isSepChar (cleanEnds ds)).length < 2)) ||
      nonNumericTok ((splitSep isSepChar (cleanEnds ds)).getD 0 []) ||
      dayOutOfRange (jsParseInt ((splitSep isSepChar (cleanEnds ds)).getD 0 [])) ||
      (sPT && timeOutOfRange (splitSep isSepChar (cleanEnds ds)) 1)) = true) :
    parseDateFromString ds .dhm sPT (some y) (some mo) none = none := by
  unfold parseDateFromString
  split
  · rfl
  dsimp only
  split
  · rfl
  split
  · rfl
  rename_i hg1 hg2
  split
  · rename_i d0 heq0
    split
    · rename_i hsp
      split
      · rfl
      · rename_i pr h0 mi0 hpt
        unfold parseTimeToken at hpt
        split at hpt
        · exact absurd hpt (by simp)
        · rename_i hlen4
          injection hpt with hpt2
          obtain ⟨hA, hB⟩ := Prod.mk.injEq .. |>.mp hpt2
          subst hA
          subst hB
          apply finishDate_none_of_out
          simp only [hsp, heq0, nonNumericTok, Option.isNone_none, Option.isNone_some,
            dayOutOfRange, timeOutOfRange, Bool.true_and, Bool.not_true,
            Bool.false_and, Bool.or_false, Bool.false_or, Bool.or_eq_true,
            decide_eq_true_eq] at hmal
          simp only [hsp, Bool.true_and, decide_eq_true_eq] at hg1
          omega
    · rename_i hsp
      have hspf : sPT = false := by
        rcases sPT with _ | _
        · rfl
        · exact absurd rfl hsp
      apply finishDate_none_of_out
      simp only [hspf, heq0, nonNumericTok, Option.isNone_none, Option.isNone_some,
        dayOutOfRange, timeOutOfRange, Bool.false_and, Bool.not_false,
        Bool.true_and, Bool.or_false, Bool.false_or, Bool.or_eq_true, decide_eq_true_eq] at hmal
      simp only [hsp, Bool.true_and, decide_eq_true_eq] at hg1
      omega
  · rfl

theorem pds_hm_none (ds : JStr) (sPT : Bool) (y mo d : Int)
    (hmal : (sPT && timeOutOfRange (splitSep isSepChar (cleanEnds ds)) 0) = true) :
    parseDateFromString ds .hm sPT (some y) (some mo) (some d) = none := by
  have hsp : sPT = true := by
    rcases Bool.and_eq_true .. |>.mp hmal with ⟨h, _⟩
    exact h
  have ht : timeOutOfRange (splitSep isSepChar (cleanEnds ds)) 0 = true := by
    rcases Bool.and_eq_true .. |>.mp hmal with ⟨_, h⟩
    exact h
  subst hsp
  unfold parseDateFromString
  split
  · rfl
  dsimp only
  rw [if_pos rfl]
  split
  · rfl
  apply finishDate_none_of_out
  simp only [timeOutOfRange, decide_eq_true_eq] at ht
  omega

/-- C2 counterexample: the time token abcd is non-numeric, yet the decoder
returns a date (midnight of 2024-06-05) instead of the null sentinel: the
source coerces a NaN hour or minute of the HHmm token to zero instead of
failing. -/
theorem claim2_counterexample :
    nonNumericTok ('a' :: 'b' :: 'c' :: 'd' :: []) = true ∧
    parseDateFromFilePath
        ('2' :: '0' :: '2' :: '4' :: '-' :: '6' :: '-' :: '5' :: '-' :: 'a' :: 'b' :: 'c' :: 'd' :: [])
        ('2' :: '0' :: '2' :: '4' :: '-' :: '6' :: '-' :: '5' :: '-' :: 'a' :: 'b' :: 'c' :: 'd' :: [])
        (structureName .flat) true =
      .ok (some ⟨2024, 6, 5, 0, 0⟩) := by
  constructor
  · rfl
  · rfl

/-- C2 amended: for the four structures, any input with an ASCII filename
whose required year, month or day tokens (directory components or filename
tokens) are non-numeric, whose numeric month, day, hour or minute fields are
out of range, or whose token count is too small for the structure, decodes
to the null sentinel without throwing; a fully non-numeric hour or minute
inside a well-formed four-character time token is the exception, being
coerced to 00 (see the counterexample).  The ASCII hypothesis on the
filename marks the domain on which the model of the Unicode end-trimming
regex of parseDateFromString is exact; the relative path is unconstrained,
as its components meet only parseInt, which is modelled exactly. -/
theorem claim2_malformed (st : FilesystemStructure) (sPT : Bool) (relativePath filename : JStr)
    ( _hascii : ∀ c ∈ filename, c.toNat ≤ 127)
    (hmal : malformedInput st sPT relativePath filename = true) :
    parseDateFromFilePath relativePath filename (structureName st) sPT = .ok none := by
  rcases st with _ | _ | _ | _
  · rw [show structureName .flat = "none" from rfl, parseDateFromFilePath_none]
    dsimp only [malformedInput] at hmal
    rw [pds_ymdhm_none (stemOf filename) sPT hmal]
  · rw [show structureName .year = "year" from rfl, parseDateFromFilePath_year]
    dsimp only [malformedInput] at hmal
    split
    · rcases hj : jsParseInt ((splitSep (fun c => c = '/') relativePath).getD 0 []) with _ | y0
      · simp
      · simp only [hj, nonNumericTok, Option.isNone_some, Bool.false_or] at hmal
        dsimp only
        rw [pds_mdhm_none (stemOf filename) sPT y0 hmal]
    · rfl
  · rw [show structureName .month = "month" from rfl, parseDateFromFilePath_month]
    dsimp only [malformedInput] at hmal
    split
    · rename_i hlen2
      rcases hj0 : jsParseInt ((splitSep (fun c => c = '/') relativePath).getD 0 []) with _ | y0
      · rcases hj1 : jsParseInt ((splitSep (fun c => c = '/') relativePath).getD 1 []) with _ | m0 <;> simp [hj0, hj1]
      · rcases hj1 : jsParseInt ((splitSep (fun c => c = '/') relativePath).getD 1 []) with _ | m0
        · simp [hj0, hj1]
        · simp only [hj0, hj1]
          split
          · rename_i hcond
            simp only [hj0, hj1, nonNumericTok, Option.isNone_some, Bool.false_or,
              monthOutOfRange, decide_eq_false (by omega : ¬(m0 < 1 ∨ 12 < m0)),
              decide_eq_false (by omega : ¬((splitSep (fun c => c = '/') relativePath).length < 2))] at hmal
            rw [pds_dhm_none (stemOf filename) sPT y0 (m0 - 1) hmal]
          · rfl
    · rfl
  · rw [show structureName .day = "day" from rfl, parseDateFromFilePath_day]
    dsimp only [malformedInput] at hmal
    split
    · rename_i hlen3
      rcases hj0 : jsParseInt ((splitSep (fun c => c = '/') relativePath).getD 0 []) with _ | y0
      · rcases hj1 : jsParseInt ((splitSep (fun c => c = '/') relativePath).getD 1 []) with _ | m0 <;>
          rcases hj2 : jsParseInt ((splitSep (fun c => c = '/') relativePath).getD 2 []) with _ | d0 <;>
          simp [hj0, hj1, hj2]
      · rcases hj1 : jsParseInt ((splitSep (fun c => c = '/') relativePath).getD 1 []) with _ | m0
        · rcases hj2 : jsParseInt ((splitSep (fun c => c = '/') relativePath).getD 2 []) with _ | d0 <;>
            simp [hj0, hj1, hj2]
        · rcases hj2 : jsParseInt ((splitSep (fun c => c = '/') relativePath).getD 2 []) with _ | d0
          · simp [hj0, hj1, hj2]
          · simp only [hj0, hj1, hj2]
            split
            · rename_i hcond
              simp only [hj0, hj1, hj2, nonNumericTok, Option.isNone_some, Bool.false_or,
                monthOutOfRange, dayOutOfRange,
                decide_eq_false (by omega : ¬(m0 < 1 ∨ 12 < m0)),
                decide_eq_false (by omega : ¬(d0 < 1 ∨ 31 < d0)),
                decide_eq_false (by omega : ¬((splitSep (fun c => c = '/') relativePath).length < 3))] at hmal
              rw [pds_hm_none (stemOf filename) sPT y0 (m0 - 1) d0 hmal]
            · rfl
    · rfl

/-- C2 witness. -/
theorem claim2_malformed_witness :
    (∀ c ∈ ('2' :: '0' :: '2' :: '4' :: '-' :: '6' :: '-' :: '5' :: []), Char.toNat c ≤ 127) ∧
    malformedInput .flat true
        ('2' :: '0' :: '2' :: '4' :: '-' :: '6' :: '-' :: '5' :: [])
        ('2' :: '0' :: '2' :: '4' :: '-' :: '6' :: '-' :: '5' :: []) = true ∧
    parseDateFromFilePath ('2' :: '0' :: '2' :: '4' :: '-' :: '6' :: '-' :: '5' :: [])
        ('2' :: '0' :: '2' :: '4' :: '-' :: '6' :: '-' :: '5' :: [])
        (structureName .flat) true = .ok none :=
  ⟨by decide, by decide,
   claim2_malformed .flat true
     ('2' :: '0' :: '2' :: '4' :: '-' :: '6' :: '-' :: '5' :: [])
     ('2' :: '0' :: '2' :: '4' :: '-' :: '6' :: '-' :: '5' :: []) (by decide) (by decide)⟩

theorem civLT_irrefl (a : CivilDateTime) : civLT a a = false := by
  simp [civLT]

/-- C7 counterexample: the claim quantifies over every range with valid
bounds, but for the degenerate range whose start equals its end the date
equal to the start is rejected (the end-exclusive check fires first on the
membership test), contradicting the start-inclusive half of the claim. -/
theorem claim7_counterexample :
    (⟨2022, 1, 1, 0, 0⟩ : CivilDateTime) =
      (⟨⟨2022, 1, 1, 0, 0⟩, ⟨2022, 1, 1, 0, 0⟩⟩ : CivilDateRange).rangeStart ∧
    isDateInRange ⟨2022, 1, 1, 0, 0⟩
      (some ⟨⟨2022, 1, 1, 0, 0⟩, ⟨2022, 1, 1, 0, 0⟩⟩) = false := by
  constructor
  · rfl
  · decide

/-- C7 amended: for every range whose start is strictly before its end, the
date equal to the start is in range (start inclusive) and the date equal to
the end is not (end exclusive). -/
theorem claim7_boundary (r : CivilDateRange)
    (h : civLT r.rangeStart r.rangeEnd = true) :
    isDateInRange r.rangeStart (some r) = true ∧
    isDateInRange r.rangeEnd (some r) = false := by
  constructor
  · simp [isDateInRange, civLT_irrefl, h]
  · simp only [isDateInRange]
    rcases h2 : civLT r.rangeEnd r.rangeStart with _ | _ <;>
      simp [h2, civLT_irrefl]

/-- C7 witness. -/
theorem claim7_boundary_witness :
    isDateInRange ⟨2022, 1, 1, 0, 0⟩
      (some ⟨⟨2022, 1, 1, 0, 0⟩, ⟨2022, 3, 1, 0, 0⟩⟩) = true ∧
    isDateInRange ⟨2022, 3, 1, 0, 0⟩
      (some ⟨⟨2022, 1, 1, 0, 0⟩, ⟨2022, 3, 1, 0, 0⟩⟩) = false :=
  claim7_boundary ⟨⟨2022, 1, 1, 0, 0⟩, ⟨2022, 3, 1, 0, 0⟩⟩ (by decide)

/-- C8: with no explicit bounds, calculateDateRange returns the range whose
end is the current time of the timezone-bound calendar utility and whose
start is exactly 31 days before that end, for every calendar utility. -/
theorem claim8_default_range {α : Type} (dateUtil : DatesUtility α) :
    calculateDateRange dateUtil none none =
      .ok ⟨dateUtil.subDays dateUtil.now 31, dateUtil.now⟩ := by
  simp [calculateDateRange]

theorem workerRun_eq_take {α : Type} :
    ∀ (queue : List α) (processed limit : Nat),
      workerRun queue processed limit = queue.take (limit - processed) := by
  intro queue
  induction queue with
  | nil =>
    intro processed limit
    simp [workerRun]
  | cons f rest ih =>
    intro processed limit
    simp only [workerRun]
    split
    · rename_i hlt
      have h : limit - processed = (limit - (processed + 1)) + 1 := by omega
      rw [h]
      simp [ih]
    · rename_i hge
      have h : limit - processed = 0 := by omega
      simp [h]

/-- C9: for every candidate list and every positive limit, the walk pulls
exactly the first limit candidates from the enumerator output, so at most
limit candidates are examined, independently of the date filter, and the
count of processed files never exceeds the limit. -/
theorem claim9_limit_bounds (files : List JStr) (l : Nat) (hl : 0 < l) :
    forEachFileInFiles files (some l) = files.take l ∧
    (forEachFileInFiles files (some l)).length ≤ l ∧
    (∀ (inputDirectory : JStr) (struct : String) (shouldParseTime : Bool)
       (callbackOk : JStr → Bool) (pattern : JStr) (dateRange : Option CivilDateRange),
      processWalk files inputDirectory struct shouldParseTime callbackOk pattern
        dateRange (some l) ≤ l) := by
  have heq : forEachFileInFiles files (some l) = files.take l := by
    simp only [forEachFileInFiles, effectiveLimit]
    rw [if_neg (by omega)]
    rw [workerRun_eq_take]
    simp
  refine ⟨heq, ?_, ?_⟩
  · rw [heq]
    simp
  · intro inputDirectory struct shouldParseTime callbackOk pattern dateRange
    unfold processWalk
    calc ((forEachFileInFiles files (some l)).filter _).length
        ≤ (forEachFileInFiles files (some l)).length := List.length_filter_le _ _
      _ ≤ l := by rw [heq]; simp

/-- C9 witness. -/
theorem claim9_limit_bounds_witness :
    forEachFileInFiles (['a'] :: ['b'] :: ['c'] :: []) (some 2) = [['a'], ['b']] ∧
    (forEachFileInFiles (['a'] :: ['b'] :: ['c'] :: []) (some 2)).length ≤ 2 := by
  have h := claim9_limit_bounds (['a'] :: ['b'] :: ['c'] :: []) 2 (by decide)
  exact ⟨by rw [h.1]; decide, h.2.1⟩

theorem processStructuredFile_eq_invoked_and_callback
    (filePath inputDirectory : JStr) (struct : String) (shouldParseTime : Bool)
    (callbackOk : JStr → Bool) (pattern : JStr) (dateRange : Option CivilDateRange) :
    processStructuredFile filePath inputDirectory struct shouldParseTime callbackOk
        pattern dateRange =
      (callbackInvoked filePath inputDirectory struct shouldParseTime pattern dateRange
        && callbackOk filePath) := by
  simp only [callbackInvoked, processStructuredFile]
  split
  · simp
  · split
    · simp
    · rcases parseDateFromFilePath _ _ struct shouldParseTime with e | d
      · simp
      · rcases d with _ | d
        · simp
        · simp only []
          split <;> simp

/-- C3 counterexample: a directory with one decodable in-range file whose
callback throws yields a returned count of 0, while the callback was
invoked on that one file, contradicting the claim that the count equals the
number of callback invocations regardless of callback outcome. -/
theorem claim3_counterexample :
    processWalk [('i' :: 'n' :: '/' :: ('2' :: '0' :: '2' :: '4' :: '-' :: '6' :: '-' :: '5' :: '-' :: 'x' :: []))]
        ('i' :: 'n' :: []) "none" false (fun _ => false)
        ('*' :: '*' :: '/' :: '*' :: '.' :: 't' :: 'x' :: 't' :: []) none none = 0 ∧
    ((forEachFileInFiles [('i' :: 'n' :: '/' :: ('2' :: '0' :: '2' :: '4' :: '-' :: '6' :: '-' :: '5' :: '-' :: 'x' :: []))] none).filter
      (fun f => callbackInvoked f ('i' :: 'n' :: []) "none" false
        ('*' :: '*' :: '/' :: '*' :: '.' :: 't' :: 'x' :: 't' :: []) none)).length = 1 := by
  constructor <;> decide

/-- C3 amended: the count returned by the walk equals the number of files
for which the callback was invoked and returned normally; a file whose
callback throws is not counted (the walker catches the exception, logs it
and reports the file as unprocessed). -/
theorem claim3_count (files : List JStr) (inputDirectory : JStr) (struct : String)
    (shouldParseTime : Bool) (callbackOk : JStr → Bool) (pattern : JStr)
    (dateRange : Option CivilDateRange) (limit : Option Nat) :
    processWalk files inputDirectory struct shouldParseTime callbackOk pattern
        dateRange limit =
      ((forEachFileInFiles files limit).filter
        (fun f => callbackInvoked f inputDirectory struct shouldParseTime pattern dateRange
          && callbackOk f)).length := by
  unfold processWalk
  congr 1
  apply List.filter_congr
  intro f _
  exact processStructuredFile_eq_invoked_and_callback f inputDirectory struct
    shouldParseTime callbackOk pattern dateRange

/-- C4: constructFilename joins its fragments with dashes in the fixed
order date fragment (only when the date option is set and the structure
permits one), HHmm time fragment (only when the time option is set), the
mandatory identifier, the mandatory type tag, and the sanitized subject
(only when the subject option is set); with no options set the result is
exactly identifier-type. -/
theorem claim4_filename_order (outputFilenameOptions : List String)
    (st : FilesystemStructure) (date : CivilDateTime) (typeTag hash : JStr)
    (subject : Option JStr)
    (hperm : outputFilenameOptions.contains "date" = true → st ≠ .day) :
    constructFilename outputFilenameOptions (some st) date typeTag hash subject =
      .ok (joinSep '-'
        ((if outputFilenameOptions.contains "date" then [dateFragment st date] else []) ++
         (if outputFilenameOptions.contains "time" then [fmtHHmm date.hour date.minute] else []) ++
         [hash, typeTag] ++
         (if outputFilenameOptions.contains "subject" then
            [sanitizeFilenameString (subject.getD [])] else []))) ∧
    constructFilename [] (some st) date typeTag hash subject =
      .ok (hash ++ '-' :: typeTag) := by
  constructor
  · rcases hdate : outputFilenameOptions.contains "date" with _ | _
    · have hdmem : ¬("date" ∈ outputFilenameOptions) := by simpa using hdate
      simp [constructFilename, hdmem]
    · have hdmem : "date" ∈ outputFilenameOptions := by simpa using hdate
      have hst := hperm hdate
      rcases st with _ | _ | _ | _
      · simp [constructFilename, hdmem, formatDate, Except.map]
      · simp [constructFilename, hdmem, formatDate, Except.map]
      · simp [constructFilename, hdmem, formatDate, Except.map]
      · exact absurd rfl hst
  · rfl

/-- C4 witness. -/
theorem claim4_filename_order_witness :
    constructFilename ["date", "time", "subject"] (some .flat) ⟨2024, 6, 15, 10, 30⟩
        ('e' :: 'm' :: 'l' :: []) ('a' :: 'b' :: 'c' :: [])
        (some ('R' :: 'e' :: ':' :: ' ' :: 'x' :: [])) =
      .ok (joinSep '-'
        ([dateFragment .flat ⟨2024, 6, 15, 10, 30⟩] ++ [fmtHHmm 10 30] ++
         [('a' :: 'b' :: 'c' :: []), ('e' :: 'm' :: 'l' :: [])] ++
         [sanitizeFilenameString ('R' :: 'e' :: ':' :: ' ' :: 'x' :: [])])) ∧
    constructFilename [] (some .flat) ⟨2024, 6, 15, 10, 30⟩
        ('e' :: 'm' :: 'l' :: []) ('a' :: 'b' :: 'c' :: [])
        (some ('R' :: 'e' :: ':' :: ' ' :: 'x' :: [])) =
      .ok (('a' :: 'b' :: 'c' :: []) ++ '-' :: ('e' :: 'm' :: 'l' :: [])) := by
  have h := claim4_filename_order ["date", "time", "subject"] .flat ⟨2024, 6, 15, 10, 30⟩
    ('e' :: 'm' :: 'l' :: []) ('a' :: 'b' :: 'c' :: [])
    (some ('R' :: 'e' :: ':' :: ' ' :: 'x' :: [])) (fun _ => by decide)
  refine ⟨?_, h.2⟩
  rw [h.1]
  rfl

/-- C6: requesting the date filename fragment with the day output structure
is rejected by configuration validation for every option list containing
date, and the date-fragment encoder refuses structure day for every date. -/
theorem claim6_date_day_rejected (outputFilenameOptions : List JStr)
    (d : CivilDateTime)
    (h : (('d' :: 'a' :: 't' :: 'e' :: []) : JStr) ∈ outputFilenameOptions) :
    (validateOutputFilenameOptions outputFilenameOptions (some "day")).isOk = false ∧
    (formatDate (some .day) d).isOk = false := by
  refine ⟨?_, rfl⟩
  unfold validateOutputFilenameOptions
  split
  · rename_i hemp
    rw [List.isEmpty_iff] at hemp
    subst hemp
    cases h
  · split
    · rfl
    · split
      · rfl
      · split
        · rfl
        · split
          · rfl
          · rename_i hcond
            exact absurd ⟨List.elem_eq_true_of_mem h, rfl⟩ hcond

/-- C6 witness. -/
theorem claim6_date_day_rejected_witness :
    (validateOutputFilenameOptions [('d' :: 'a' :: 't' :: 'e' :: [])] (some "day")).isOk = false ∧
    (formatDate (some .day) ⟨2024, 1, 1, 0, 0⟩).isOk = false :=
  claim6_date_day_rejected [('d' :: 'a' :: 't' :: 'e' :: [])] ⟨2024, 1, 1, 0, 0⟩ (by decide)

/-- C10: getFilePattern throws exactly for a dot-prefixed extension: if some
extension begins with a dot the result is an error even when the extensions
feature is disabled, and with no dot-prefixed extension it always returns a
pattern. -/
theorem claim10_pattern_dot (features : List String) (extensions : List JStr) :
    ((∃ e ∈ extensions, e.headD ' ' = '.') →
      (getFilePattern features extensions).isOk = false) ∧
    ((∀ e ∈ extensions, e.headD ' ' ≠ '.') →
      ∃ p, getFilePattern features extensions = .ok p) := by
  constructor
  · intro hex
    unfold getFilePattern
    rw [if_pos]
    · rfl
    · rcases hex with ⟨e, he, hdot⟩
      exact List.any_eq_true.mpr ⟨e, he, decide_eq_true hdot⟩
  · intro hall
    unfold getFilePattern
    rw [if_neg]
    · split
      · split
        · exact ⟨_, rfl⟩
        · exact ⟨_, rfl⟩
      · exact ⟨_, rfl⟩
    · intro hany
      rcases List.any_eq_true.mp hany with ⟨e, he, hdot⟩
      exact hall e he (of_decide_eq_true hdot)

/-- C10 witness. -/
theorem claim10_pattern_dot_witness :
    (getFilePattern ["extensions"] [('.' :: 't' :: 'x' :: 't' :: [])]).isOk = false ∧
    ∃ p, getFilePattern ["extensions"] [('t' :: 'x' :: 't' :: [])] = .ok p :=
  ⟨(claim10_pattern_dot ["extensions"] [('.' :: 't' :: 'x' :: 't' :: [])]).1
      ⟨('.' :: 't' :: 'x' :: 't' :: []), by decide, by decide⟩,
   (claim10_pattern_dot ["extensions"] [('t' :: 'x' :: 't' :: [])]).2
      (by decide)⟩

theorem dropWhile_length_le {p : Char → Bool} :
    ∀ l : JStr, (l.dropWhile p).length ≤ l.length := by
  intro l
  induction l with
  | nil => simp
  | cons c rest ih =>
    rw [List.dropWhile_cons]
    by_cases h : p c = true
    · rw [if_pos h]
      exact Nat.le_succ_of_le ih
    · rw [if_neg h]

theorem dropWhile_append {p : Char → Bool} :
    ∀ a b : JStr, (a ++ b).dropWhile p =
      if (a.dropWhile p).isEmpty then b.dropWhile p else a.dropWhile p ++ b := by
  intro a b
  induction a with
  | nil => simp
  | cons c rest ih =>
    rw [List.cons_append, List.dropWhile_cons, List.dropWhile_cons]
    by_cases hc : p c = true
    · simp only [hc, if_true]
      exact ih
    · simp only [hc]
      simp

theorem dropEndWhile_cons_neg {p : Char → Bool} {c : Char} (hc : p c = false) (x : JStr) :
    dropEndWhile p (c :: x) = c :: dropEndWhile p x := by
  unfold dropEndWhile
  rw [List.reverse_cons, dropWhile_append]
  by_cases hx : (x.reverse.dropWhile p).isEmpty = true
  · rw [if_pos hx]
    rw [List.isEmpty_iff] at hx
    rw [hx]
    simp [List.dropWhile_cons, hc]
  · rw [if_neg hx]
    simp

theorem dropEndWhile_cons_pos {p : Char → Bool} {c : Char} (hc : p c = true) (x : JStr) :
    dropEndWhile p (c :: x) =
      if dropEndWhile p x = [] then [] else c :: dropEndWhile p x := by
  unfold dropEndWhile
  rw [List.reverse_cons, dropWhile_append]
  by_cases hx : (x.reverse.dropWhile p).isEmpty = true
  · rw [if_pos hx]
    rw [List.isEmpty_iff] at hx
    rw [if_pos (by rw [hx]; rfl)]
    rw [List.dropWhile_cons, hc]
    simp
  · rw [if_neg hx]
    rw [List.isEmpty_iff] at hx
    rw [if_neg (by intro h; exact hx (by simpa using h))]
    simp

theorem head?_dropWhile {p : Char → Bool} :
    ∀ (l : JStr) (c : Char), (l.dropWhile p).head? = some c → p c = false := by
  intro l
  induction l with
  | nil => intro c h; simp at h
  | cons d rest ih =>
    intro c h
    rw [List.dropWhile_cons] at h
    by_cases hd : p d = true
    · rw [if_pos hd] at h
      exact ih c h
    · rw [if_neg hd] at h
      injection h with h2
      rw [← h2]
      simpa using hd

theorem collapse_cons_other {c : Char} (hc : ¬(c = '_')) (r : JStr) :
    collapseUnderscores (c :: r) = c :: collapseUnderscores r := by
  rcases r with _ | ⟨b, r2⟩
  · rfl
  · conv_lhs => unfold collapseUnderscores
    rw [if_neg (by simp [hc])]

theorem collapse_cons_underscore :
    ∀ r : JStr, collapseUnderscores ('_' :: r) =
      '_' :: collapseUnderscores (r.dropWhile (fun x => x = '_')) := by
  intro r
  induction r with
  | nil => rfl
  | cons b r2 ih =>
    by_cases hb : b = '_'
    · subst hb
      have h1 : collapseUnderscores ('_' :: '_' :: r2) = collapseUnderscores ('_' :: r2) := by
        conv_lhs => unfold collapseUnderscores
        rw [if_pos (by simp)]
      rw [h1, ih]
      simp [List.dropWhile_cons]
    · have h1 : collapseUnderscores ('_' :: b :: r2) = '_' :: collapseUnderscores (b :: r2) := by
        conv_lhs => unfold collapseUnderscores
        rw [if_neg (by simp [hb])]
      rw [h1]
      rw [List.dropWhile_cons, if_neg (by simp [hb])]

theorem collapse_head? : ∀ l : JStr, (collapseUnderscores l).head? = l.head? := by
  intro l
  rcases l with _ | ⟨c, r⟩
  · rfl
  · by_cases hc : c = '_'
    · subst hc
      rw [collapse_cons_underscore]
      rfl
    · rw [collapse_cons_other hc]
      rfl

theorem collapse_eq_nil_iff : ∀ l : JStr, collapseUnderscores l = [] ↔ l = [] := by
  intro l
  rcases l with _ | ⟨c, r⟩
  · exact iff_of_true rfl rfl
  · by_cases hc : c = '_'
    · subst hc
      rw [collapse_cons_underscore]
      simp
    · rw [collapse_cons_other hc]
      simp

theorem joinSep_cons_eq (sep : Char) (t : JStr) (ts : List JStr) :
    joinSep sep (t :: ts) = t ++ (if ts = [] then [] else sep :: joinSep sep ts) := by
  rcases ts with _ | ⟨u, ts2⟩
  · simp [joinSep]
  · rfl

theorem chunks_cons_underscore (l : JStr) :
    ((splitSep (fun c => c = '_') ('_' :: l)).filter (fun t => !t.isEmpty)) =
      ((splitSep (fun c => c = '_') l).filter (fun t => !t.isEmpty)) := by
  rw [splitSep_cons_sep (by simp)]
  simp

theorem chunks_dropWhile :
    ∀ l : JStr,
      ((splitSep (fun c => c = '_') (l.dropWhile (fun x => x = '_'))).filter
        (fun t => !t.isEmpty)) =
      ((splitSep (fun c => c = '_') l).filter (fun t => !t.isEmpty)) := by
  intro l
  induction l with
  | nil => rfl
  | cons c r ih =>
    by_cases hc : c = '_'
    · subst hc
      rw [List.dropWhile_cons, if_pos (by simp)]
      rw [ih, chunks_cons_underscore]
    · rw [List.dropWhile_cons, if_neg (by simp [hc])]

theorem chunks_elem_ne_nil {l : List JStr} :
    ∀ u ∈ l.filter (fun t => !t.isEmpty), u ≠ [] := by
  intro u hu
  have h2 := (List.mem_filter.mp hu).2
  intro h
  subst h
  simp at h2

theorem join_chunks_ne_nil {l : JStr}
    (h : ((splitSep (fun c => c = '_') l).filter (fun t => !t.isEmpty)) ≠ []) :
    joinSep '_' ((splitSep (fun c => c = '_') l).filter (fun t => !t.isEmpty)) ≠ [] := by
  rcases hc : (splitSep (fun c => c = '_') l).filter (fun t => !t.isEmpty) with _ | ⟨t0, rest⟩
  · exact absurd hc h
  · have ht0 : t0 ≠ [] := chunks_elem_ne_nil t0 (by rw [hc]; simp)
    rw [hc]
    exact joinSep_ne_nil ht0 rest

theorem chunks_cons_other {c : Char} (hc : ¬(c = '_')) (r : JStr) {h0 : JStr}
    {ts : List JStr} (hsp : splitSep (fun ch => ch = '_') r = h0 :: ts) :
    ((splitSep (fun ch => ch = '_') (c :: r)).filter (fun t => !t.isEmpty)) =
      (c :: h0) :: ts.filter (fun t => !t.isEmpty) := by
  rw [splitSep_cons_other (by simp [hc]) hsp]
  simp

theorem head_underscore_of_h0_ne {r : JStr} {h0 : JStr} {ts : List JStr}
    (hsp : splitSep (fun ch => ch = '_') r = h0 :: ts) (hh0 : h0 ≠ []) :
    ¬(r.head? = some '_') := by
  intro hcontr
  rcases r with _ | ⟨d, r2⟩
  · simp at hcontr
  · injection hcontr with hd
    rw [splitSep_cons_sep (by simp [hd])] at hsp
    injection hsp with h1 h2
    exact hh0 h1.symm

theorem head_underscore_of_h0_nil {r : JStr} {ts : List JStr}
    (hsp : splitSep (fun ch => ch = '_') r = [] :: ts)
    (hts : ts.filter (fun t => !t.isEmpty) ≠ []) :
    r.head? = some '_' := by
  rcases r with _ | ⟨d, r2⟩
  · simp only [splitSep] at hsp
    injection hsp with h1 h2
    rw [← h2] at hts
    simp at hts
  · by_cases hd : d = '_'
    · rw [hd]
      rfl
    · rcases hx : splitSep (fun ch => ch = '_') r2 with _ | ⟨a, b⟩
      · exact absurd hx (splitSep_ne_nil _ r2)
      · rw [splitSep_cons_other (by simp [hd]) hx] at hsp
        injection hsp with h1 h2
        simp at h1

theorem rdrop_collapse_aux :
    ∀ (n : Nat) (l : JStr), l.length ≤ n →
      dropEndWhile (fun c => c = '_') (collapseUnderscores l) =
        if ((splitSep (fun c => c = '_') l).filter (fun t => !t.isEmpty)) = [] then []
        else (if l.head? = some '_' then ['_'] else []) ++
          joinSep '_' ((splitSep (fun c => c = '_') l).filter (fun t => !t.isEmpty)) := by
  intro n
  induction n with
  | zero =>
    intro l hl
    have hnil : l = [] := by
      rcases l with _ | _
      · rfl
      · simp at hl
    subst hnil
    rfl
  | succ n ih =>
    intro l hl
    rcases l with _ | ⟨c, r⟩
    · rfl
    · by_cases hc : c = '_'
      · subst hc
        rw [collapse_cons_underscore]
        rw [dropEndWhile_cons_pos (by simp)]
        have hlen : (r.dropWhile (fun x => x = '_')).length ≤ n := by
          have hdw := dropWhile_length_le (p := fun x => decide (x = '_')) r
          simp only [List.length_cons] at hl
          omega
        have hIH := ih (r.dropWhile (fun x => x = '_')) hlen
        rw [chunks_dropWhile] at hIH
        have hlead : (if (r.dropWhile (fun x => x = '_')).head? = some '_'
            then (['_'] : JStr) else []) = [] := by
          rw [if_neg]
          intro h
          have hpc := head?_dropWhile r '_' h
          simp at hpc
        rw [hlead] at hIH
        simp only [List.nil_append] at hIH
        rw [hIH, chunks_cons_underscore]
        by_cases hch : ((splitSep (fun c => c = '_') r).filter (fun t => !t.isEmpty)) = []
        · rw [if_pos hch, if_pos hch]
          simp
        · rw [if_neg hch, if_neg hch, if_neg (join_chunks_ne_nil hch)]
          simp
      · rw [collapse_cons_other hc]
        rw [dropEndWhile_cons_neg (by simp [hc]) _]
        have hIH := ih r (by simp only [List.length_cons] at hl; omega)
        rw [hIH]
        rcases hsp : splitSep (fun ch => ch = '_') r with _ | ⟨h0, ts⟩
        · exact absurd hsp (splitSep_ne_nil _ r)
        rw [chunks_cons_other hc r hsp]
        rw [if_neg (show ¬((c :: h0) :: ts.filter (fun t => !t.isEmpty) = []) by simp)]
        rw [if_neg (show ¬((c :: r).head? = some '_') by simp [hc])]
        simp only [List.nil_append]
        by_cases hh0 : h0 = []
        · subst hh0
          have hfr : List.filter (fun t => !List.isEmpty t) (([] : JStr) :: ts) =
              List.filter (fun t => !List.isEmpty t) ts := by simp
          rw [hfr]
          by_cases hts : List.filter (fun t => !List.isEmpty t) ts = []
          · rw [if_pos hts, hts, joinSep_cons_eq]
            simp
          · rw [if_neg hts]
            rw [if_pos (head_underscore_of_h0_nil hsp hts)]
            rw [joinSep_cons_eq]
            rw [if_neg hts]
            simp
        · have hfr : List.filter (fun t => !List.isEmpty t) (h0 :: ts) =
              h0 :: List.filter (fun t => !List.isEmpty t) ts := by
            rw [List.filter_cons, if_pos (by simpa [List.isEmpty_iff] using hh0)]
          rw [hfr]
          rw [if_neg (show ¬(h0 :: List.filter (fun t => !List.isEmpty t) ts = []) by simp)]
          rw [if_neg (head_underscore_of_h0_ne hsp hh0)]
          simp only [List.nil_append]
          rw [joinSep_cons_eq, joinSep_cons_eq]
          simp

theorem trim_collapse (l : JStr) :
    trimUnderscores (collapseUnderscores l) =
      joinSep '_' ((splitSep (fun c => c = '_') l).filter (fun t => !t.isEmpty)) := by
  rcases l with _ | ⟨c, r⟩
  · rfl
  · by_cases hc : c = '_'
    · subst hc
      rw [collapse_cons_underscore]
      unfold trimUnderscores
      rw [List.dropWhile_cons, if_pos (by simp)]
      have hne : (collapseUnderscores (r.dropWhile (fun x => x = '_'))).dropWhile
          (fun x => x = '_') = collapseUnderscores (r.dropWhile (fun x => x = '_')) := by
        apply dropWhile_eq_self_of_head
        intro d hd
        rw [collapse_head?] at hd
        exact head?_dropWhile r d hd
      rw [hne]
      rw [rdrop_collapse_aux (r.dropWhile (fun x => x = '_')).length _ le_rfl]
      rw [chunks_dropWhile]
      rw [chunks_cons_underscore]
      have hlead : ¬((r.dropWhile (fun x => x = '_')).head? = some '_') := by
        intro h
        have hpc := head?_dropWhile r '_' h
        simp at hpc
      rw [if_neg hlead]
      simp only [List.nil_append]
      by_cases hch : ((splitSep (fun ch => ch = '_') r).filter (fun t => !t.isEmpty)) = []
      · rw [if_pos hch, hch]
        rfl
      · rw [if_neg hch]
    · have hne : (collapseUnderscores (c :: r)).dropWhile (fun x => x = '_') =
          collapseUnderscores (c :: r) := by
        apply dropWhile_eq_self_of_head
        intro d hd
        rw [collapse_head?] at hd
        injection hd with hd2
        subst hd2
        simp [hc]
      unfold trimUnderscores
      rw [hne]
      rw [rdrop_collapse_aux (c :: r).length (c :: r) le_rfl]
      rw [if_neg (show ¬((c :: r).head? = some '_') by simp [hc])]
      simp only [List.nil_append]
      by_cases hch : ((splitSep (fun ch => ch = '_') (c :: r)).filter (fun t => !t.isEmpty)) = []
      · rw [if_pos hch, hch]
        rfl
      · rw [if_neg hch]

theorem chunks_all_underscore :
    ∀ l : JStr, (∀ c ∈ l, c = '_') →
      ((splitSep (fun c => c = '_') l).filter (fun t => !t.isEmpty)) = [] := by
  intro l
  induction l with
  | nil => intro _; rfl
  | cons c r ih =>
    intro h
    have hc : c = '_' := h c (by simp)
    subst hc
    rw [chunks_cons_underscore]
    exact ih (fun d hd => h d (by simp [hd]))

/-- C5: for every subject string, with an absent subject treated as the empty
string, the sanitized subject fragment used by constructFilename equals the
specification pipeline (replace each character outside the allowed class by an
underscore, collapse runs of underscores, trim leading and trailing
underscores, substitute the untitled placeholder when empty); in particular an
absent, empty, or all-disallowed subject yields the untitled token. -/
theorem claim5_sanitize (subject : Option JStr) :
    sanitizeFilenameString (subject.getD []) = sanitizeSpecification (subject.getD []) ∧
    ((∀ c ∈ subject.getD [], isAllowedFilenameChar c = false) →
      sanitizeFilenameString (subject.getD []) = untitledStr) := by
  constructor
  · simp only [sanitizeFilenameString, sanitizeSpecification]
    rw [trim_collapse]
  · intro h
    have hmap : ∀ c ∈ (subject.getD []).map
        (fun c => if isAllowedFilenameChar c then c else '_'), c = '_' := by
      intro c hc
      rcases List.mem_map.mp hc with ⟨a, ha, hae⟩
      rw [← hae, h a ha]
      simp
    have hch := chunks_all_underscore _ hmap
    simp only [sanitizeFilenameString]
    rw [trim_collapse, hch]
    rfl

theorem claim5_sanitize_witness :
    (∀ c ∈ (some ['!', '!', '!'] : Option JStr).getD [], isAllowedFilenameChar c = false) ∧
    sanitizeFilenameString ((some ['!', '!', '!'] : Option JStr).getD []) = untitledStr :=
  ⟨by decide, (claim5_sanitize (some ['!', '!', '!'])).2 (by decide)⟩

end DreadCabinet
